import Mathlib

/-!
midi-web-socket: a verification development

A shallow embedding of `server.js` (the WebSocket broadcast relay) and of the
message path of `client.js` (`handleLocalMidiMessage`, `webSocket.onmessage`,
`playRemoteMidi`), followed by theorems about them.

Conventions of the embedding.

* A WebSocket object is identified by a natural number (object identity).
* A JavaScript string is its sequence of UTF-16 code units (`JSString`).
* The JavaScript `Set` named `clients` is a duplicate-free list kept in
  insertion order (`JSSet`); `forEach` visits it in that order.
* `console.*` output is kept as a list of structured entries, one constructor
  per call site.
* What the host platform decides (send completion errors, `readyState`
  changes, floating-point conversions, the MIDI device) enters as data that
  the theorems quantify over.
-/

namespace MidiWebSocket

/-! ## Common data -/

/-- A JavaScript string: its UTF-16 code units. -/
abbrev JSString := List Nat

/-- The UTF-16 code units of one Unicode scalar value. -/
def utf16Char (c : Char) : List Nat :=
  if c.toNat < 65536 then [c.toNat]
  else [55296 + (c.toNat - 65536) / 1024, 56320 + (c.toNat - 65536) % 1024]

/-- The JavaScript string holding the given text. -/
def utf16 (s : String) : JSString :=
  s.toList.flatMap utf16Char

/-- The `readyState` of a WebSocket (`CONNECTING = 0`, `OPEN = 1`,
`CLOSING = 2`, `CLOSED = 3`). -/
inductive ReadyState where
  | CONNECTING
  | OPEN
  | CLOSING
  | CLOSED
  deriving DecidableEq, Repr

/-! ## The `clients` set of `server.js` -/

/-- A JavaScript `Set` of WebSocket objects: identities in insertion order,
without repetition. -/
structure JSSet where
  elems : List Nat
  nodup : elems.Nodup

namespace JSSet

/-- The value of `new Set()`. -/
def empty : JSSet := ⟨[], List.nodup_nil⟩

/-- The method `Set.prototype.has`. -/
def has (s : JSSet) (x : Nat) : Bool := decide (x ∈ s.elems)

/-- The property `Set.prototype.size`. -/
def size (s : JSSet) : Nat := s.elems.length

/-- The method `Set.prototype.add`: appends the value unless it is present. -/
def add (s : JSSet) (x : Nat) : JSSet :=
  if h : x ∈ s.elems then s
  else ⟨s.elems ++ [x], by
    rw [List.nodup_append]
    refine ⟨s.nodup, List.nodup_singleton x, ?_⟩
    intro a ha hb
    rw [List.mem_singleton] at hb
    exact h (hb ▸ ha)⟩

/-- The method `Set.prototype.delete`: removes the value if it is present. -/
def delete (s : JSSet) (x : Nat) : JSSet :=
  ⟨s.elems.filter (fun y => decide (y ≠ x)), s.nodup.filter _⟩

end JSSet

/-! ## `server.js` -/

/-- What `ws.on('message')` receives: a string or a `Buffer` of bytes. -/
inductive Message where
  | text (s : JSString)
  | binary (bytes : List Nat)
  deriving DecidableEq, Repr

/-- The local `messageType` of the 'message' handler. -/
inductive MessageType where
  | Desconocido
  | BINARIO
  | TEXTO
  deriving DecidableEq, Repr

/-- One call `client.send(message, cb)`. The field `via` is the `ws` of the
enclosing 'message' handler (the sender of the message). -/
structure Sent where
  via : Nat
  target : Nat
  data : Message
  deriving DecidableEq, Repr

/-- One line of console output of `server.js`, by call site. -/
inductive LogEntry where
  | clienteConectado
  | totalClientesConectados (size : Nat)
  | mensajeBinarioRecibido (length : Nat)
  | mensajeTextoRecibido (s : JSString)
  | errorAlReenviar (messageType : MessageType) (err : String)
  | clienteDesconectado
  | errorEnConexion (error : String)
  | clienteEliminadoPorError (size : Nat)
  deriving DecidableEq, Repr

/-- The state the handlers of `server.js` read and write: the module-level
`clients`, the `readyState` of every WebSocket object (owned by the `ws`
library), the calls to `client.send` so far, and the console. -/
structure Server where
  clients : JSSet
  readyState : Nat → ReadyState
  sent : List Sent
  console : List LogEntry

/-- The server right after the module is loaded, with every socket in the
given state. -/
def Server.init (readyState : Nat → ReadyState) : Server :=
  ⟨JSSet.empty, readyState, [], []⟩

/-- The part of `wss.on('connection', (ws) => ...)` that runs at once. -/
def onConnection (s : Server) (ws : Nat) : Server :=
  let clients := s.clients.add ws
  { s with
    clients := clients
    console := s.console ++ [LogEntry.clienteConectado,
      LogEntry.totalClientesConectados clients.size] }

/-- The classification and log at the top of the 'message' handler. -/
def classify (message : Message) : MessageType × LogEntry :=
  match message with
  | Message.binary bytes => (MessageType.BINARIO, LogEntry.mensajeBinarioRecibido bytes.length)
  | Message.text s => (MessageType.TEXTO, LogEntry.mensajeTextoRecibido s)

/-- When and with what the `ws` library invokes the completion callback of
one `send`: `err` is the argument it passes (`none` for success), `sync`
says whether it does so before `send` returns or later. -/
structure Completion where
  err : Option String
  sync : Bool

/-- The completion callback `(err) => ...` given to `client.send`, where
`messageType` is the variable captured from the handler. -/
def sendCallback (s : Server) (messageType : MessageType) (err : Option String) : Server :=
  match err with
  | some e => { s with console := s.console ++ [LogEntry.errorAlReenviar messageType e] }
  | none => s

/-- The call `client.send(message, cb)` made by the handler of `ws`. -/
def send (s : Server) (ws client : Nat) (message : Message) (messageType : MessageType)
    (completion : Completion) : Server :=
  let s1 := { s with sent := s.sent ++ [(⟨ws, client, message⟩ : Sent)] }
  if completion.sync then sendCallback s1 messageType completion.err else s1

/-- The body of the callback given to `clients.forEach`, for one `client`. -/
def forEachBody (ws : Nat) (message : Message) (messageType : MessageType)
    (completion : Nat → Completion) (s : Server) (client : Nat) : Server :=
  if client ≠ ws ∧ s.readyState client = ReadyState.OPEN then
    send s ws client message messageType (completion client)
  else s

/-- The handler `ws.on('message', (message) => ...)`. The loop visits the
members of `clients` in insertion order; its body never changes `clients`, so
the members visited are those present when the loop starts. -/
def onMessage (s : Server) (ws : Nat) (message : Message)
    (completion : Nat → Completion) : Server :=
  let messageType := (classify message).1
  let s0 := { s with console := s.console ++ [(classify message).2] }
  s.clients.elems.foldl (forEachBody ws message messageType completion) s0

/-- The handler `ws.on('close', () => ...)`. -/
def onClose (s : Server) (ws : Nat) : Server :=
  let clients := s.clients.delete ws
  { s with
    clients := clients
    console := s.console ++ [LogEntry.clienteDesconectado,
      LogEntry.totalClientesConectados clients.size] }

/-- The handler `ws.on('error', (error) => ...)`. -/
def onError (s : Server) (ws : Nat) (error : String) : Server :=
  let clients := s.clients.delete ws
  { s with
    clients := clients
    console := s.console ++ [LogEntry.errorEnConexion error,
      LogEntry.clienteEliminadoPorError clients.size] }

/-- The `send` calls a handler run added to the log. -/
def issued (before after : Server) : List Sent :=
  after.sent.drop before.sent.length

/-- A whole broadcast: the 'message' handler of `ws`, then the completion
callbacks that the library did not invoke during `send`, in the order of the
sends. -/
def broadcast (s : Server) (ws : Nat) (message : Message)
    (completion : Nat → Completion) : Server :=
  let s1 := onMessage s ws message completion
  ((issued s s1).filter (fun x => !(completion x.target).sync)).foldl
    (fun st x => sendCallback st (classify message).1 (completion x.target).err) s1

/-! ### Runs of the server -/

/-- What the `ws` library and the network do to the server, one at a time. -/
inductive Event where
  | connection
  | message (ws : Nat) (message : Message) (completion : Nat → Completion)
  | close (ws : Nat)
  | error (ws : Nat) (error : String)
  | sendDone (messageType : MessageType) (err : Option String)
  | readyState (ws : Nat) (state : ReadyState)

/-- The server together with the number of WebSocket objects the library has
created; the next one gets that number as its identity. -/
structure World where
  server : Server
  created : Nat

/-- The world when the module has been loaded. -/
def World.init (readyState : Nat → ReadyState) : World :=
  ⟨Server.init readyState, 0⟩

/-- One event. A 'connection' hands the handler a new WebSocket object and
registers its three listeners; 'message', 'close' and 'error' reach a
listener only on an object that has had its 'connection'. -/
def step (w : World) : Event → World
  | Event.connection => ⟨onConnection w.server w.created, w.created + 1⟩
  | Event.message ws message completion =>
    if ws < w.created then { w with server := onMessage w.server ws message completion } else w
  | Event.close ws =>
    if ws < w.created then { w with server := onClose w.server ws } else w
  | Event.error ws error =>
    if ws < w.created then { w with server := onError w.server ws error } else w
  | Event.sendDone messageType err =>
    { w with server := sendCallback w.server messageType err }
  | Event.readyState ws state =>
    { w with server := { w.server with
        readyState := fun x => if x = ws then state else w.server.readyState x } }

/-- A sequence of events, processed one at a time. -/
def run (w : World) (events : List Event) : World :=
  events.foldl step w

/-- The messages the server received from `P`, in order of arrival. -/
def inbound (P : Nat) (events : List Event) : List Message :=
  events.filterMap (fun e =>
    match e with
    | Event.message ws message _ => if ws = P then some message else none
    | _ => none)

/-- The messages from `P` that the server sent to `T`, in order of sending. -/
def forwarded (P T : Nat) (sent : List Sent) : List Message :=
  (sent.filter (fun x => decide (x.via = P ∧ x.target = T))).map Sent.data

/-! ## `client.js`: JSON -/

/-- A number of a JSON text as written: sign, value of the integer digits,
the digits after the point (`[]` when there is no fraction) and the exponent
(`none` when there is none). It denotes the IEEE double nearest to
`± integer.fraction × 10 ^ exponent`. -/
structure JNumber where
  negative : Bool
  integer : Nat
  fraction : List Nat
  exponent : Option Int
  deriving DecidableEq, Repr

/-- The values `JSON.parse` returns. The members of an object are kept in
source order, repeated keys included. -/
inductive JValue where
  | null
  | bool (b : Bool)
  | number (n : JNumber)
  | string (s : JSString)
  | array (elements : List JValue)
  | object (members : List (JSString × JValue))

/-- JSON white space: tab, line feed, carriage return, space. -/
def isWhiteSpace (c : Nat) : Bool :=
  c == 9 || c == 10 || c == 13 || c == 32

/-- The decimal digits `0` to `9`. -/
def isDigit (c : Nat) : Bool :=
  decide (48 ≤ c) && decide (c ≤ 57)

/-- Drops leading white space. -/
def skipWs : List Nat → List Nat
  | [] => []
  | c :: cs => if isWhiteSpace c then skipWs cs else c :: cs

/-- Splits off the longest prefix of decimal digits, as digit values. -/
def takeDigits : List Nat → List Nat × List Nat
  | [] => ([], [])
  | c :: cs =>
    if isDigit c then ((c - 48) :: (takeDigits cs).1, (takeDigits cs).2)
    else ([], c :: cs)

/-- The number written by a sequence of decimal digits. -/
def digitsValue (ds : List Nat) : Nat :=
  ds.foldl (fun a d => 10 * a + d) 0

/-- The fraction of a JSON number: nothing, or a point and at least one digit. -/
def parseFraction (s : List Nat) : Option (List Nat × List Nat) :=
  match s with
  | [] => some ([], [])
  | c :: cs =>
    if c = 46 then
      if (takeDigits cs).1 = [] then none else some (takeDigits cs)
    else some ([], c :: cs)

/-- The digits of an exponent, after its sign. -/
def parseExponentDigits (negative : Bool) (s : List Nat) : Option (Option Int × List Nat) :=
  if (takeDigits s).1 = [] then none
  else
    let v : Int := digitsValue (takeDigits s).1
    some (some (if negative then -v else v), (takeDigits s).2)

/-- The exponent of a JSON number: nothing, or `e` or `E`, an optional sign
and at least one digit. -/
def parseExponent (s : List Nat) : Option (Option Int × List Nat) :=
  match s with
  | [] => some (none, [])
  | c :: cs =>
    if c = 101 ∨ c = 69 then
      match cs with
      | [] => none
      | d :: ds =>
        if d = 43 then parseExponentDigits false ds
        else if d = 45 then parseExponentDigits true ds
        else parseExponentDigits false (d :: ds)
    else some (none, c :: cs)

/-- The integer part of a JSON number: `0`, or a digit from `1` to `9`
followed by digits. -/
def parseInteger (s : List Nat) : Option (Nat × List Nat) :=
  match s with
  | [] => none
  | c :: cs =>
    if c = 48 then some (0, cs)
    else if isDigit c then some (digitsValue (takeDigits (c :: cs)).1, (takeDigits (c :: cs)).2)
    else none

/-- A JSON number after its optional minus sign. -/
def parseUnsigned (negative : Bool) (s : List Nat) : Option (JNumber × List Nat) :=
  match parseInteger s with
  | none => none
  | some (i, s1) =>
    match parseFraction s1 with
    | none => none
    | some (fr, s2) =>
      match parseExponent s2 with
      | none => none
      | some (ex, s3) => some (⟨negative, i, fr, ex⟩, s3)

/-- A JSON number. -/
def parseNumber (s : List Nat) : Option (JNumber × List Nat) :=
  match s with
  | [] => none
  | c :: cs => if c = 45 then parseUnsigned true cs else parseUnsigned false (c :: cs)

/-- The value of a hexadecimal digit. -/
def hexValue (c : Nat) : Option Nat :=
  if 48 ≤ c ∧ c ≤ 57 then some (c - 48)
  else if 65 ≤ c ∧ c ≤ 70 then some (c - 55)
  else if 97 ≤ c ∧ c ≤ 102 then some (c - 87)
  else none

/-- The code unit written by a one-letter escape. -/
def escapeValue (c : Nat) : Option Nat :=
  if c = 34 then some 34
  else if c = 92 then some 92
  else if c = 47 then some 47
  else if c = 98 then some 8
  else if c = 102 then some 12
  else if c = 110 then some 10
  else if c = 114 then some 13
  else if c = 116 then some 9
  else none

/-- Where the scanner of a JSON string stands: between characters, after a
backslash, or inside `\uXXXX` with `remaining` digits to read. -/
inductive StringState where
  | normal
  | escape
  | hex (remaining : Nat) (value : Nat)

/-- The characters of a JSON string after its opening quote, up to and
including the closing quote. -/
def parseStringChars : StringState → JSString → List Nat → Option (JSString × List Nat)
  | _, _, [] => none
  | StringState.normal, acc, c :: cs =>
    if c = 34 then some (acc, cs)
    else if c = 92 then parseStringChars StringState.escape acc cs
    else if c < 32 then none
    else parseStringChars StringState.normal (acc ++ [c]) cs
  | StringState.escape, acc, c :: cs =>
    if c = 117 then parseStringChars (StringState.hex 4 0) acc cs
    else
      match escapeValue c with
      | some u => parseStringChars StringState.normal (acc ++ [u]) cs
      | none => none
  | StringState.hex remaining value, acc, c :: cs =>
    match hexValue c with
    | none => none
    | some d =>
      if remaining ≤ 1 then parseStringChars StringState.normal (acc ++ [value * 16 + d]) cs
      else parseStringChars (StringState.hex (remaining - 1) (value * 16 + d)) acc cs

/-- Reads the given characters literally. -/
def expect (word : List Nat) (s : List Nat) : Option (List Nat) :=
  if word.isPrefixOf s then some (s.drop word.length) else none

mutual

/-- A JSON value with optional white space before it. The first argument
bounds the depth of the recursion. -/
def parseValue : Nat → List Nat → Option (JValue × List Nat)
  | 0, _ => none
  | fuel + 1, s =>
    match skipWs s with
    | [] => none
    | c :: cs =>
      if c = 123 then
        match skipWs cs with
        | [] => none
        | d :: ds =>
          if d = 125 then some (JValue.object [], ds)
          else
            match parseMembers fuel [] (d :: ds) with
            | none => none
            | some (ms, r) => some (JValue.object ms, r)
      else if c = 91 then
        match skipWs cs with
        | [] => none
        | d :: ds =>
          if d = 93 then some (JValue.array [], ds)
          else
            match parseElements fuel [] (d :: ds) with
            | none => none
            | some (vs, r) => some (JValue.array vs, r)
      else if c = 34 then
        match parseStringChars StringState.normal [] cs with
        | none => none
        | some (str, r) => some (JValue.string str, r)
      else if c = 45 ∨ isDigit c = true then
        match parseNumber (c :: cs) with
        | none => none
        | some (n, r) => some (JValue.number n, r)
      else if c = 116 then
        match expect [114, 117, 101] cs with
        | none => none
        | some r => some (JValue.bool true, r)
      else if c = 102 then
        match expect [97, 108, 115, 101] cs with
        | none => none
        | some r => some (JValue.bool false, r)
      else if c = 110 then
        match expect [117, 108, 108] cs with
        | none => none
        | some r => some (JValue.null, r)
      else none

/-- The elements of a non-empty JSON array, after `[` or `,`, up to and
including `]`. -/
def parseElements : Nat → List JValue → List Nat → Option (List JValue × List Nat)
  | 0, _, _ => none
  | fuel + 1, acc, s =>
    match parseValue fuel s with
    | none => none
    | some (v, s1) =>
      match skipWs s1 with
      | [] => none
      | c :: cs =>
        if c = 44 then parseElements fuel (acc ++ [v]) cs
        else if c = 93 then some (acc ++ [v], cs)
        else none

/-- The members of a non-empty JSON object, after `{` or `,`, up to and
including `}`. -/
def parseMembers : Nat → List (JSString × JValue) → List Nat →
    Option (List (JSString × JValue) × List Nat)
  | 0, _, _ => none
  | fuel + 1, acc, s =>
    match skipWs s with
    | [] => none
    | q :: s0 =>
      if q = 34 then
        match parseStringChars StringState.normal [] s0 with
        | none => none
        | some (key, s1) =>
          match skipWs s1 with
          | [] => none
          | c :: cs =>
            if c = 58 then
              match parseValue fuel cs with
              | none => none
              | some (v, s2) =>
                match skipWs s2 with
                | [] => none
                | d :: ds =>
                  if d = 44 then parseMembers fuel (acc ++ [(key, v)]) ds
                  else if d = 125 then some (acc ++ [(key, v)], ds)
                  else none
            else none
      else none

end

/-- The function `JSON.parse` on a string: `none` stands for a thrown
`SyntaxError`. Every recursive call of the parser is made after at most two
calls on the same input position, so the bound is never reached. -/
def jsonParse (text : JSString) : Option JValue :=
  match parseValue (2 * text.length + 2) text with
  | none => none
  | some (v, rest) => if skipWs rest = [] then some v else none

/-! ## `client.js`: the message path -/

/-- What the browser decides and this development does not compute: the
results of conversions that depend on rounding to a double or on the
rules for converting non-numbers, the typed-array constructor on arguments
other than arrays, and the MIDI output port. -/
structure Host where
  /-- Truth value of a number whose rounding decides it. -/
  numberTruthy : JNumber → Bool
  /-- Conversion of an array element to a byte (`ToNumber`, then `ToUint8`). -/
  toUint8 : JValue → Nat
  /-- `new Uint8Array(v)` for `v` that is not an array: the elements, or the
  exception thrown. -/
  typedArrayOf : JValue → Except String (List Nat)
  /-- `MIDIOutput.send(data)` on the given port: the exception thrown, if any. -/
  outputSend : Nat → List Nat → Option String

/-- The status texts given to `updateStatus` by the functions embedded here. -/
inductive StatusMessage where
  | webSocketDesconectado
  deriving DecidableEq, Repr

/-- One line of console output of `client.js`, by call site. -/
inductive ClientLog where
  | status (message : StatusMessage)
  | midiRecibido (midiData : List Nat)
  | noEsMidiEsperado (message : JValue)
  | errorAlProcesar (data : JSString)
  | midiLocalDetectado (midiData : List Nat)
  | midiEnviado (messageToSend : JSString)
  | noSePudoEnviar
  | midiRemotoEnviado (midiDataArray : List Nat)
  | sinSalidaSeleccionada

/-- The state the embedded functions of `client.js` read and write: the
globals `webSocket` and `selectedMidiOutput`, the `readyState` of the socket,
the text of `statusDiv`, and what has been done so far: `webSocket.send`
calls, calls of `playRemoteMidi`, `selectedMidiOutput.send` calls, console. -/
structure Client where
  webSocket : Option Nat
  readyState : ReadyState
  selectedMidiOutput : Option Nat
  statusText : Option StatusMessage
  wsSent : List JSString
  played : List (List Nat)
  midiOut : List (Nat × List Nat)
  console : List ClientLog

/-- The function `updateStatus`. -/
def updateStatus (c : Client) (message : StatusMessage) : Client :=
  { c with
    console := c.console ++ [ClientLog.status message]
    statusText := some message }

/-- The digits of a natural number, most significant first, as code units.
The first argument bounds the recursion. -/
def decimalAux : Nat → Nat → List Nat → List Nat
  | 0, _, acc => acc
  | fuel + 1, n, acc =>
    if n < 10 then (48 + n) :: acc
    else decimalAux fuel (n / 10) ((48 + n % 10) :: acc)

/-- The text of a non-negative integer below `10 ^ 21` as `JSON.stringify`
writes it: its decimal digits. -/
def numberToString (n : Nat) : JSString :=
  decimalAux (n + 1) n []

/-- The text `JSON.stringify` writes for an array of such integers. -/
def stringifyArray (xs : List Nat) : JSString :=
  [91] ++ List.intercalate [44] (xs.map numberToString) ++ [93]

/-- The value of `JSON.stringify` on the object with `type: 'midi'` and
`payload: Array.from(midiData)`: the members in order, no white space. -/
def messageToSend (midiData : List Nat) : JSString :=
  utf16 "\x7b\"type\":\"midi\",\"payload\":" ++ stringifyArray midiData ++ [125]

/-- The function `handleLocalMidiMessage`, given the bytes of `event.data`. -/
def handleLocalMidiMessage (c : Client) (midiData : List Nat) : Client :=
  let c1 := { c with console := c.console ++ [ClientLog.midiLocalDetectado midiData] }
  if c1.webSocket.isSome ∧ c1.readyState = ReadyState.OPEN then
    { c1 with
      wsSent := c1.wsSent ++ [messageToSend midiData]
      console := c1.console ++ [ClientLog.midiEnviado (messageToSend midiData)] }
  else
    updateStatus { c1 with console := c1.console ++ [ClientLog.noSePudoEnviar] }
      StatusMessage.webSocketDesconectado

/-- The function `playRemoteMidi`: the new state, or the state reached and the
exception thrown by `selectedMidiOutput.send`. -/
def playRemoteMidi (h : Host) (c : Client) (midiDataArray : List Nat) :
    Except (Client × String) Client :=
  let c1 := { c with played := c.played ++ [midiDataArray] }
  match c1.selectedMidiOutput with
  | some port =>
    let c2 := { c1 with midiOut := c1.midiOut ++ [(port, midiDataArray)] }
    match h.outputSend port midiDataArray with
    | some e => Except.error (c2, e)
    | none =>
      Except.ok { c2 with console := c2.console ++ [ClientLog.midiRemotoEnviado midiDataArray] }
  | none =>
    Except.ok { c1 with console := c1.console ++ [ClientLog.sinSalidaSeleccionada] }

/-- The string `'midi'`. -/
def midi : JSString := [109, 105, 100, 105]

/-- The string `'type'`. -/
def typeKey : JSString := [116, 121, 112, 101]

/-- The string `'payload'`. -/
def payloadKey : JSString := [112, 97, 121, 108, 111, 97, 100]

/-- The value of `message.key` for a key that no prototype defines (`type`,
`payload`): `Except.error` is the `TypeError` of reading a property of `null`,
`none` is `undefined`. Of repeated members `JSON.parse` keeps the last. -/
def getProperty (message : JValue) (key : JSString) : Except String (Option JValue) :=
  match message with
  | JValue.null => Except.error "TypeError"
  | JValue.object members =>
    Except.ok ((members.reverse.find? (fun kv => kv.1 == key)).map Prod.snd)
  | _ => Except.ok none

/-- The comparison `x === 'midi'`. -/
def isMidi (x : Option JValue) : Bool :=
  match x with
  | some (JValue.string s) => s == midi
  | _ => false

/-- The truth value of a number: false exactly when its double is zero. -/
def numberTruthy (h : Host) (n : JNumber) : Bool :=
  if n.integer = 0 ∧ n.fraction.all (fun d => d == 0) then false
  else if 0 < n.integer ∧ n.exponent = none then true
  else h.numberTruthy n

/-- The truth value of a value other than `undefined` (`ToBoolean`). -/
def truthy (h : Host) (x : JValue) : Bool :=
  match x with
  | JValue.null => false
  | JValue.bool b => b
  | JValue.number n => numberTruthy h n
  | JValue.string s => !s.isEmpty
  | JValue.array _ => true
  | JValue.object _ => true

/-- The byte a typed array stores for an element of the source array: an
integer written without sign, fraction or exponent and below `2 ^ 53` is
exact and is reduced modulo 256. -/
def toUint8 (h : Host) (v : JValue) : Nat :=
  match v with
  | JValue.number n =>
    if n.negative = false ∧ n.fraction = [] ∧ n.exponent = none ∧ n.integer < 2 ^ 53 then
      n.integer % 256
    else h.toUint8 v % 256
  | _ => h.toUint8 v % 256

/-- The expression `new Uint8Array(message.payload)` for a truthy payload. -/
def newUint8Array (h : Host) (payload : JValue) : Except String (List Nat) :=
  match payload with
  | JValue.array elements => Except.ok (elements.map (toUint8 h))
  | v => (h.typedArrayOf v).map (fun bytes => bytes.map (fun b => b % 256))

/-- The `catch (e)` block of `webSocket.onmessage`. -/
def catchBlock (c : Client) (data : JSString) : Client :=
  { c with console := c.console ++ [ClientLog.errorAlProcesar data] }

/-- The `else` branch inside the `try` block of `webSocket.onmessage`. -/
def elseBranch (c : Client) (message : JValue) : Client :=
  { c with console := c.console ++ [ClientLog.noEsMidiEsperado message] }

/-- The `try` block of `webSocket.onmessage` after `JSON.parse` returned
`message`: the new state, or the state reached and the exception thrown. The
payload is read only when the type is `'midi'`; an `undefined` payload is
false. -/
def tryBlock (h : Host) (c : Client) (message : JValue) : Except (Client × String) Client :=
  match getProperty message typeKey with
  | Except.error e => Except.error (c, e)
  | Except.ok type =>
    if isMidi type then
      match getProperty message payloadKey with
      | Except.error e => Except.error (c, e)
      | Except.ok none => Except.ok (elseBranch c message)
      | Except.ok (some payload) =>
        if truthy h payload then
          match newUint8Array h payload with
          | Except.error e => Except.error (c, e)
          | Except.ok midiData =>
            playRemoteMidi h
              { c with console := c.console ++ [ClientLog.midiRecibido midiData] } midiData
        else Except.ok (elseBranch c message)
    else Except.ok (elseBranch c message)

/-- The handler `webSocket.onmessage`, given the text of `event.data`. -/
def onmessage (h : Host) (c : Client) (data : JSString) : Client :=
  match jsonParse data with
  | none => catchBlock c data
  | some message =>
    match tryBlock h c message with
    | Except.ok c1 => c1
    | Except.error (c1, _) => catchBlock c1 data

/-! ## Vocabulary of the statements -/

/-- The members of `clients` other than `ws` whose socket is open, in
insertion order. -/
def liveOthers (s : Server) (ws : Nat) : List Nat :=
  s.clients.elems.filter (fun c => decide (c ≠ ws ∧ s.readyState c = ReadyState.OPEN))

/-- The targets of a list of `send` calls, in order. -/
def targetsOf (sends : List Sent) : List Nat :=
  sends.map Sent.target

/-- A completion that reports success after `send` has returned. -/
def Completion.ok : Completion := ⟨none, false⟩

/-- The server after three peers `0`, `1`, `2` (A, B, C) have connected in
this order, every socket open. -/
def threePeers : Server :=
  onConnection (onConnection (onConnection (Server.init (fun _ => ReadyState.OPEN)) 0) 1) 2

/-- The text message of the note-on scenario. -/
def noteOnText : Message :=
  Message.text (utf16 "\x7b\"type\":\"midi\",\"payload\":[144,60,100]\x7d")

/-- The binary message `0xFE 0x01 0x02`. -/
def rawBytes : Message :=
  Message.binary [254, 1, 2]

/-- The text message `hello`. -/
def helloText : Message :=
  Message.text (utf16 "hello")

/-- The JSON value of a non-negative integer written without fraction or
exponent. -/
def integerValue (n : Nat) : JValue :=
  JValue.number ⟨false, n, [], none⟩

/-- The value `JSON.parse` gives for the envelope of the bytes `b`. -/
def envelopeValue (b : List Nat) : JValue :=
  JValue.object [(typeKey, JValue.string midi), (payloadKey, JValue.array (b.map integerValue))]

/-- A host whose MIDI port accepts everything and whose typed-array
constructor rejects every argument that is not an array. -/
def Host.plain : Host :=
  ⟨fun _ => true, fun _ => 0, fun _ => Except.error "RangeError", fun _ _ => none⟩

/-- A client with an open socket, an output port selected and nothing done
so far. -/
def Client.connected : Client :=
  ⟨some 0, ReadyState.OPEN, some 0, none, [], [], [], []⟩

/-- Whether `message.type === 'midi'` holds, for a `message` whose `type` can
be read; it cannot be read, and so does not equal `'midi'`, for `null`. -/
def typeIsMidi (message : JValue) : Bool :=
  match getProperty message typeKey with
  | Except.ok type => isMidi type
  | Except.error _ => false

/-- Whether the event is the 'close' or the 'error' event of the socket `T`,
the two events whose handlers delete `T` from `clients`. -/
def removes (T : Nat) : Event → Bool
  | Event.close ws => decide (ws = T)
  | Event.error ws _ => decide (ws = T)
  | _ => false

/-- A completion that reports the error `EPIPE` after `send` has returned. -/
def Completion.failed : Completion := ⟨some "EPIPE", false⟩

/-! ## Lemmas on the set and on the handlers of the server -/

theorem JSSet.ext_elems {a b : JSSet} (h : a.elems = b.elems) : a = b := by
  cases a
  cases b
  cases h
  rfl

theorem JSSet.mem_add (s : JSSet) (x y : Nat) :
    y ∈ (s.add x).elems ↔ y ∈ s.elems ∨ y = x := by
  unfold JSSet.add
  split
  · constructor
    · intro hy
      exact Or.inl hy
    · rintro (hy | rfl)
      · exact hy
      · assumption
  · simp

theorem JSSet.mem_delete (s : JSSet) (x y : Nat) :
    y ∈ (s.delete x).elems ↔ y ∈ s.elems ∧ y ≠ x := by
  simp [JSSet.delete]

theorem JSSet.delete_of_not_mem (s : JSSet) (x : Nat) (h : x ∉ s.elems) :
    s.delete x = s := by
  apply JSSet.ext_elems
  simp only [JSSet.delete]
  rw [List.filter_eq_self]
  intro a ha
  have : a ≠ x := fun e => h (e ▸ ha)
  simpa using this

theorem JSSet.delete_delete (s : JSSet) (x : Nat) :
    (s.delete x).delete x = s.delete x :=
  JSSet.delete_of_not_mem _ _ (by simp [JSSet.mem_delete])

theorem sendCallback_clients (s : Server) (mt : MessageType) (err : Option String) :
    (sendCallback s mt err).clients = s.clients := by
  cases err <;> rfl

theorem sendCallback_readyState (s : Server) (mt : MessageType) (err : Option String) :
    (sendCallback s mt err).readyState = s.readyState := by
  cases err <;> rfl

theorem sendCallback_sent (s : Server) (mt : MessageType) (err : Option String) :
    (sendCallback s mt err).sent = s.sent := by
  cases err <;> rfl

theorem send_clients (s : Server) (ws client : Nat) (m : Message) (mt : MessageType)
    (k : Completion) : (send s ws client m mt k).clients = s.clients := by
  unfold send
  split
  · rw [sendCallback_clients]
  · rfl

theorem send_readyState (s : Server) (ws client : Nat) (m : Message) (mt : MessageType)
    (k : Completion) : (send s ws client m mt k).readyState = s.readyState := by
  unfold send
  split
  · rw [sendCallback_readyState]
  · rfl

theorem send_sent (s : Server) (ws client : Nat) (m : Message) (mt : MessageType)
    (k : Completion) : (send s ws client m mt k).sent = s.sent ++ [⟨ws, client, m⟩] := by
  unfold send
  split
  · rw [sendCallback_sent]
  · rfl

/-- The loop of the 'message' handler over any list of clients: the set and
the socket states stay, and the log grows by one send per open client other
than the sender. -/
theorem forEach_spec (ws : Nat) (m : Message) (mt : MessageType) (k : Nat → Completion)
    (l : List Nat) (st : Server) :
    (l.foldl (forEachBody ws m mt k) st).clients = st.clients ∧
    (l.foldl (forEachBody ws m mt k) st).readyState = st.readyState ∧
    (l.foldl (forEachBody ws m mt k) st).sent = st.sent ++
      (l.filter (fun c => decide (c ≠ ws ∧ st.readyState c = ReadyState.OPEN))).map
        (fun c => (⟨ws, c, m⟩ : Sent)) := by
  induction l generalizing st with
  | nil => simp
  | cons c cs ih =>
    rw [List.foldl_cons]
    obtain ⟨h1, h2, h3⟩ := ih (forEachBody ws m mt k st c)
    by_cases hc : c ≠ ws ∧ st.readyState c = ReadyState.OPEN
    · have hb : forEachBody ws m mt k st c = send st ws c m mt (k c) := by
        unfold forEachBody
        rw [if_pos hc]
      rw [hb] at h1 h2 h3
      rw [hb, h1, h2, h3, send_clients, send_readyState, send_sent]
      refine ⟨rfl, rfl, ?_⟩
      rw [List.filter_cons_of_pos (by simpa using hc)]
      simp
    · have hb : forEachBody ws m mt k st c = st := by
        unfold forEachBody
        rw [if_neg hc]
      rw [hb] at h1 h2 h3
      rw [hb, h1, h2, h3]
      refine ⟨rfl, rfl, ?_⟩
      rw [List.filter_cons_of_neg (by simpa using hc)]

theorem onMessage_clients (s : Server) (ws : Nat) (m : Message) (k : Nat → Completion) :
    (onMessage s ws m k).clients = s.clients :=
  (forEach_spec ws m _ k s.clients.elems _).1

theorem onMessage_readyState (s : Server) (ws : Nat) (m : Message) (k : Nat → Completion) :
    (onMessage s ws m k).readyState = s.readyState :=
  (forEach_spec ws m _ k s.clients.elems _).2.1

theorem onMessage_sent (s : Server) (ws : Nat) (m : Message) (k : Nat → Completion) :
    (onMessage s ws m k).sent =
      s.sent ++ (liveOthers s ws).map (fun c => (⟨ws, c, m⟩ : Sent)) :=
  (forEach_spec ws m _ k s.clients.elems _).2.2

theorem issued_onMessage (s : Server) (ws : Nat) (m : Message) (k : Nat → Completion) :
    issued s (onMessage s ws m k) = (liveOthers s ws).map (fun c => (⟨ws, c, m⟩ : Sent)) := by
  unfold issued
  rw [onMessage_sent, List.drop_left]

theorem targetsOf_issued_onMessage (s : Server) (ws : Nat) (m : Message)
    (k : Nat → Completion) :
    targetsOf (issued s (onMessage s ws m k)) = liveOthers s ws := by
  rw [issued_onMessage, targetsOf, List.map_map]
  exact List.map_id _

theorem liveOthers_nodup (s : Server) (ws : Nat) : (liveOthers s ws).Nodup :=
  s.clients.nodup.filter _

theorem mem_liveOthers (s : Server) (ws T : Nat) :
    T ∈ liveOthers s ws ↔
      T ∈ s.clients.elems ∧ T ≠ ws ∧ s.readyState T = ReadyState.OPEN := by
  simp [liveOthers]

theorem threePeers_elems : threePeers.clients.elems = [0, 1, 2] := by
  decide

theorem threePeers_liveOthers (ws : Nat) :
    liveOthers threePeers ws = [0, 1, 2].filter (fun c => decide (c ≠ ws)) := by
  unfold liveOthers
  rw [threePeers_elems]
  simp [threePeers, onConnection, Server.init]

/-! ## The claims on the relay -/

/-- C1. For every registry state, sender `P`, inbound message `m` (text or
binary) and way the sends complete, the 'message' handler only appends to the
log of sends; the sends it issues are exactly one per peer that is in the
registry, is not `P` and is OPEN, and none to any other peer (to `P`, to a
peer that is not OPEN, to a peer outside the registry); each carries `m`
itself. With A, B, C registered and OPEN, a text or a binary message from A
is sent exactly to B and to C. -/
theorem C1_fanout_exact (s : Server) (P : Nat) (m : Message) (k : Nat → Completion) :
    (onMessage s P m k).sent = s.sent ++ issued s (onMessage s P m k) ∧
    (∀ T, (targetsOf (issued s (onMessage s P m k))).count T =
      if T ∈ s.clients.elems ∧ T ≠ P ∧ s.readyState T = ReadyState.OPEN then 1 else 0) ∧
    (∀ x ∈ issued s (onMessage s P m k), x.data = m ∧ x.via = P) ∧
    issued threePeers (onMessage threePeers 0 noteOnText k) =
      [⟨0, 1, noteOnText⟩, ⟨0, 2, noteOnText⟩] ∧
    issued threePeers (onMessage threePeers 0 rawBytes k) =
      [⟨0, 1, rawBytes⟩, ⟨0, 2, rawBytes⟩] := by
  refine ⟨?_, ?_, ?_, ?_, ?_⟩
  · rw [issued_onMessage, onMessage_sent]
  · intro T
    rw [targetsOf_issued_onMessage, List.count_eq_of_nodup (liveOthers_nodup s P)]
    simp only [mem_liveOthers]
  · intro x hx
    rw [issued_onMessage] at hx
    obtain ⟨c, _, rfl⟩ := List.mem_map.mp hx
    exact ⟨rfl, rfl⟩
  · rw [issued_onMessage, threePeers_liveOthers]
    rfl
  · rw [issued_onMessage, threePeers_liveOthers]
    rfl

/-- C2, as stated, fails. The text `hello` is not JSON, yet with A, B, C
registered and OPEN the 'message' handler of A forwards it to B and to C; so
it is false that every text that does not parse is forwarded to no peer. -/
theorem C2_counterexample :
    jsonParse (utf16 "hello") = none ∧
    issued threePeers (onMessage threePeers 0 helloText (fun _ => Completion.ok)) =
      [⟨0, 1, helloText⟩, ⟨0, 2, helloText⟩] ∧
    ¬ (∀ (s : Server) (P : Nat) (t : JSString) (k : Nat → Completion),
        jsonParse t = none → issued s (onMessage s P (Message.text t) k) = []) := by
  have h1 : jsonParse (utf16 "hello") = none := rfl
  have h2 : issued threePeers (onMessage threePeers 0 helloText (fun _ => Completion.ok)) =
      [⟨0, 1, helloText⟩, ⟨0, 2, helloText⟩] := by
    rw [issued_onMessage, threePeers_liveOthers]
    rfl
  refine ⟨h1, h2, ?_⟩
  intro hall
  have h3 := hall threePeers 0 (utf16 "hello") (fun _ => Completion.ok) h1
  have h4 : issued threePeers
      (onMessage threePeers 0 (Message.text (utf16 "hello")) (fun _ => Completion.ok)) =
      [⟨0, 1, helloText⟩, ⟨0, 2, helloText⟩] := h2
  rw [h4] at h3
  exact List.cons_ne_nil _ _ h3

/-- C2, amended. The server does not parse: every text message from `P`,
well-formed envelope or not, is forwarded unmodified to each registered OPEN
peer other than `P`, once, in registry order; the handler leaves the registry
and the connection state of every peer unchanged. -/
theorem C2_text_forwarded_unparsed (s : Server) (P : Nat) (t : JSString)
    (k : Nat → Completion) :
    issued s (onMessage s P (Message.text t) k) =
      (liveOthers s P).map (fun T => (⟨P, T, Message.text t⟩ : Sent)) ∧
    (onMessage s P (Message.text t) k).clients = s.clients ∧
    (onMessage s P (Message.text t) k).readyState = s.readyState :=
  ⟨issued_onMessage s P _ k, onMessage_clients s P _ k, onMessage_readyState s P _ k⟩

/-- C3. Peer removal is idempotent: for every registry state and every peer
`P`, present or absent, running the removal of the 'close' handler or of the
'error' handler twice for `P`, in any of the four combinations, gives the
same registry as running it once; removing an absent peer leaves the
registry unchanged. The handlers are total functions: none of them fails. -/
theorem C3_removal_idempotent (s : Server) (P : Nat) (e1 e2 : String) :
    (onClose (onClose s P) P).clients = (onClose s P).clients ∧
    (onError (onError s P e1) P e2).clients = (onError s P e1).clients ∧
    (onError (onClose s P) P e1).clients = (onClose s P).clients ∧
    (onClose (onError s P e1) P).clients = (onError s P e1).clients ∧
    (onClose s P).clients = (onError s P e1).clients ∧
    (P ∉ s.clients.elems →
      (onClose s P).clients = s.clients ∧ (onError s P e1).clients = s.clients) := by
  refine ⟨?_, ?_, ?_, ?_, rfl, ?_⟩
  · exact JSSet.delete_delete _ _
  · exact JSSet.delete_delete _ _
  · exact JSSet.delete_delete _ _
  · exact JSSet.delete_delete _ _
  · intro h
    exact ⟨JSSet.delete_of_not_mem _ _ h, JSSet.delete_of_not_mem _ _ h⟩

/-- Witness of C3: peer `7` is absent from the registry of A, B, C, and both
removals leave it as it is. -/
theorem C3_removal_idempotent_witness :
    7 ∉ threePeers.clients.elems ∧
    (onClose threePeers 7).clients = threePeers.clients ∧
    (onError threePeers 7 "reset").clients = threePeers.clients :=
  ⟨by decide, (C3_removal_idempotent threePeers 7 "reset" "reset").2.2.2.2.2 (by decide)⟩

/-! ### Completion callbacks, removal, accept -/

theorem callbacks_spec (mt : MessageType) (f : Sent → Option String) (l : List Sent)
    (st : Server) :
    (l.foldl (fun a x => sendCallback a mt (f x)) st).clients = st.clients ∧
    (l.foldl (fun a x => sendCallback a mt (f x)) st).readyState = st.readyState ∧
    (l.foldl (fun a x => sendCallback a mt (f x)) st).sent = st.sent := by
  induction l generalizing st with
  | nil => exact ⟨rfl, rfl, rfl⟩
  | cons x xs ih =>
    rw [List.foldl_cons]
    obtain ⟨h1, h2, h3⟩ := ih (sendCallback st mt (f x))
    rw [h1, h2, h3, sendCallback_clients, sendCallback_readyState, sendCallback_sent]
    exact ⟨rfl, rfl, rfl⟩

theorem broadcast_clients (s : Server) (ws : Nat) (m : Message) (k : Nat → Completion) :
    (broadcast s ws m k).clients = s.clients := by
  unfold broadcast
  exact ((callbacks_spec _ _ _ _).1).trans (onMessage_clients s ws m k)

theorem broadcast_readyState (s : Server) (ws : Nat) (m : Message) (k : Nat → Completion) :
    (broadcast s ws m k).readyState = s.readyState := by
  unfold broadcast
  exact ((callbacks_spec _ _ _ _).2.1).trans (onMessage_readyState s ws m k)

theorem broadcast_sent (s : Server) (ws : Nat) (m : Message) (k : Nat → Completion) :
    (broadcast s ws m k).sent = (onMessage s ws m k).sent := by
  unfold broadcast
  exact (callbacks_spec _ _ _ _).2.2

theorem issued_broadcast (s : Server) (ws : Nat) (m : Message) (k : Nat → Completion) :
    issued s (broadcast s ws m k) = (liveOthers s ws).map (fun c => (⟨ws, c, m⟩ : Sent)) := by
  rw [← issued_onMessage s ws m k]
  unfold issued
  rw [broadcast_sent]

theorem targetsOf_issued_broadcast (s : Server) (ws : Nat) (m : Message)
    (k : Nat → Completion) :
    targetsOf (issued s (broadcast s ws m k)) = liveOthers s ws := by
  rw [issued_broadcast, targetsOf, List.map_map]
  exact List.map_id _

theorem count_liveOthers (s : Server) (ws T : Nat) (h1 : T ∈ s.clients.elems) (h2 : T ≠ ws)
    (h3 : s.readyState T = ReadyState.OPEN) : (liveOthers s ws).count T = 1 := by
  rw [List.count_eq_of_nodup (liveOthers_nodup s ws), if_pos]
  exact (mem_liveOthers s ws T).mpr ⟨h1, h2, h3⟩

theorem liveOthers_congr (s t : Server) (ws : Nat) (h1 : t.clients = s.clients)
    (h2 : t.readyState = s.readyState) : liveOthers t ws = liveOthers s ws := by
  unfold liveOthers
  rw [h1, h2]

/-- C4. Send failures are isolated per target: whatever error or success each
send reports, and whether it reports it before `send` returns or later, the
sends issued by a broadcast are the same, in the same order, as when every
send succeeds; every OPEN registered peer other than the sender gets its one
send, whichever sends fail. -/
theorem C4_send_failures_isolated (s : Server) (P : Nat) (m : Message)
    (k : Nat → Completion) :
    issued s (broadcast s P m k) = issued s (broadcast s P m (fun _ => Completion.ok)) ∧
    (∀ T, T ∈ s.clients.elems → T ≠ P → s.readyState T = ReadyState.OPEN →
      (targetsOf (issued s (broadcast s P m k))).count T = 1) := by
  refine ⟨?_, ?_⟩
  · rw [issued_broadcast, issued_broadcast]
  · intro T h1 h2 h3
    rw [targetsOf_issued_broadcast]
    exact count_liveOthers s P T h1 h2 h3

/-- Witness of C4: A broadcasts to B and C, the send to B fails at once and
the send to C fails later; C still gets its send. -/
theorem C4_send_failures_isolated_witness :
    (targetsOf (issued threePeers (broadcast threePeers 0 noteOnText
      (fun T => ⟨some "EPIPE", decide (T = 1)⟩)))).count 2 = 1 :=
  (C4_send_failures_isolated threePeers 0 noteOnText
    (fun T => ⟨some "EPIPE", decide (T = 1)⟩)).2 2 (by decide) (by decide) rfl

/-- C9. On a 'connection' event for `P` the registry becomes the previous one
with `P` inserted: the other peers keep their membership, the registry holds
no identity twice and `P` once, and a `P` already present adds nothing. `P`
is eligible at once: the next message from any other peer is sent to `P`
when the socket of `P` is OPEN, and the next message from `P` is sent to
every other registered OPEN peer. -/
theorem C9_accept_inserts (s : Server) (P : Nat) :
    (∀ Q, Q ∈ (onConnection s P).clients.elems ↔ Q ∈ s.clients.elems ∨ Q = P) ∧
    (onConnection s P).clients.elems.Nodup ∧
    (onConnection s P).clients.elems.count P = 1 ∧
    (P ∈ s.clients.elems → (onConnection s P).clients = s.clients) ∧
    (∀ (Q : Nat) (m : Message) (k : Nat → Completion), Q ≠ P →
      s.readyState P = ReadyState.OPEN →
      (targetsOf (issued (onConnection s P) (onMessage (onConnection s P) Q m k))).count P
        = 1) ∧
    (∀ (T : Nat) (m : Message) (k : Nat → Completion), T ∈ s.clients.elems → T ≠ P →
      s.readyState T = ReadyState.OPEN →
      (targetsOf (issued (onConnection s P) (onMessage (onConnection s P) P m k))).count T
        = 1) := by
  have hmem : ∀ Q, Q ∈ (onConnection s P).clients.elems ↔ Q ∈ s.clients.elems ∨ Q = P :=
    fun Q => JSSet.mem_add s.clients P Q
  refine ⟨hmem, (onConnection s P).clients.nodup, ?_, ?_, ?_, ?_⟩
  · rw [List.count_eq_of_nodup (onConnection s P).clients.nodup, if_pos]
    exact (hmem P).mpr (Or.inr rfl)
  · intro h
    show s.clients.add P = s.clients
    unfold JSSet.add
    rw [dif_pos h]
  · intro Q m k hQ hP
    rw [targetsOf_issued_onMessage]
    exact count_liveOthers _ Q P ((hmem P).mpr (Or.inr rfl)) (fun h => hQ h.symm) hP
  · intro T m k hT hne hopen
    rw [targetsOf_issued_onMessage]
    exact count_liveOthers _ P T ((hmem T).mpr (Or.inl hT)) hne hopen

/-- Witness of C9: a fourth peer `3` connects to A, B, C; the next message
from B is sent to it, and its own next message is sent to C. -/
theorem C9_accept_inserts_witness :
    (targetsOf (issued (onConnection threePeers 3)
      (onMessage (onConnection threePeers 3) 1 noteOnText (fun _ => Completion.ok)))).count 3
        = 1 ∧
    (targetsOf (issued (onConnection threePeers 3)
      (onMessage (onConnection threePeers 3) 3 noteOnText (fun _ => Completion.ok)))).count 2
        = 1 :=
  ⟨(C9_accept_inserts threePeers 3).2.2.2.2.1 1 noteOnText (fun _ => Completion.ok)
      (by decide) rfl,
   (C9_accept_inserts threePeers 3).2.2.2.2.2 2 noteOnText (fun _ => Completion.ok)
      (by decide) (by decide) rfl⟩

/-! ### Runs -/

theorem forwarded_append (P T : Nat) (a b : List Sent) :
    forwarded P T (a ++ b) = forwarded P T a ++ forwarded P T b := by
  simp [forwarded]

theorem forwarded_map (P T ws : Nat) (m : Message) (l : List Nat) :
    forwarded P T (l.map (fun c => (⟨ws, c, m⟩ : Sent))) =
      if ws = P then List.replicate (l.count T) m else [] := by
  induction l with
  | nil => simp [forwarded]
  | cons c cs ih =>
    rw [List.map_cons, ← List.singleton_append, forwarded_append, ih]
    by_cases h1 : ws = P
    · by_cases h2 : c = T
      · subst h1 h2
        simp [forwarded, List.replicate_succ]
      · have h3 : ¬ (T = c) := fun h => h2 h.symm
        simp [forwarded, h1, h2, List.count_cons, h3]
    · simp [forwarded, h1]

theorem inbound_cons (P : Nat) (e : Event) (es : List Event) :
    inbound P (e :: es) = inbound P [e] ++ inbound P es := by
  rw [← List.singleton_append]
  simp only [inbound, List.filterMap_append]

/-- One event only appends to the log of sends; what it appends for a pair
of sender and target is at most the message of the event, and every target
is a member of the registry. -/
theorem step_spec (w : World) (e : Event) :
    ∃ new, (step w e).server.sent = w.server.sent ++ new ∧
      (∀ P T, (forwarded P T new).Sublist (inbound P [e])) ∧
      (∀ x ∈ new, x.target ∈ w.server.clients.elems) := by
  have hnil : ∀ P T, forwarded P T [] = [] := fun _ _ => rfl
  cases e with
  | connection =>
    exact ⟨[], (List.append_nil _).symm, fun P T => by simp [hnil], by simp⟩
  | message ws m k =>
    by_cases h : ws < w.created
    · refine ⟨(liveOthers w.server ws).map (fun c => (⟨ws, c, m⟩ : Sent)), ?_, ?_, ?_⟩
      · simp only [step, if_pos h]
        exact onMessage_sent w.server ws m k
      · intro P T
        rw [forwarded_map]
        by_cases hP : ws = P
        · have hc : (liveOthers w.server ws).count T ≤ 1 :=
            List.nodup_iff_count_le_one.mp (liveOthers_nodup w.server ws) T
          have hi : inbound P [Event.message ws m k] = List.replicate 1 m := by
            simp [inbound, hP]
          rw [if_pos hP, hi]
          exact List.replicate_sublist_replicate m |>.mpr hc
        · rw [if_neg hP]
          exact List.nil_sublist _
      · intro x hx
        obtain ⟨c, hc, rfl⟩ := List.mem_map.mp hx
        exact ((mem_liveOthers w.server ws c).mp hc).1
    · refine ⟨[], ?_, fun P T => by simp [hnil], by simp⟩
      simp only [step, if_neg h, List.append_nil]
  | close ws =>
    refine ⟨[], ?_, fun P T => by simp [hnil], by simp⟩
    simp only [step]
    split <;> simp [onClose]
  | error ws err =>
    refine ⟨[], ?_, fun P T => by simp [hnil], by simp⟩
    simp only [step]
    split <;> simp [onError]
  | sendDone mt err =>
    refine ⟨[], ?_, fun P T => by simp [hnil], by simp⟩
    simp only [step, sendCallback_sent, List.append_nil]
  | readyState ws st =>
    exact ⟨[], (List.append_nil _).symm, fun P T => by simp [hnil], by simp⟩

theorem step_created (w : World) (e : Event) : w.created ≤ (step w e).created := by
  cases e <;> simp only [step] <;> (try split) <;> simp

theorem step_absent (w : World) (e : Event) (P : Nat) (h1 : P < w.created)
    (h2 : P ∉ w.server.clients.elems) : P ∉ (step w e).server.clients.elems := by
  cases e with
  | connection =>
    simp only [step, onConnection]
    rw [JSSet.mem_add]
    rintro (h | h)
    · exact h2 h
    · omega
  | message ws m k =>
    simp only [step]
    split
    · simp only [onMessage_clients]
      exact h2
    · exact h2
  | close ws =>
    simp only [step]
    split
    · simp only [onClose, JSSet.mem_delete]
      exact fun h => h2 h.1
    · exact h2
  | error ws err =>
    simp only [step]
    split
    · simp only [onError, JSSet.mem_delete]
      exact fun h => h2 h.1
    · exact h2
  | sendDone mt err =>
    simp only [step, sendCallback_clients]
    exact h2
  | readyState ws st => exact h2

theorem run_cons (w : World) (e : Event) (es : List Event) :
    run w (e :: es) = run (step w e) es := rfl

/-- A run only appends to the log of sends, and what it appends for a pair of
sender and target is a subsequence of the inbound stream of the sender. -/
theorem run_spec (events : List Event) (w : World) :
    ∃ new, (run w events).server.sent = w.server.sent ++ new ∧
      ∀ P T, (forwarded P T new).Sublist (inbound P events) := by
  induction events generalizing w with
  | nil => exact ⟨[], (List.append_nil _).symm, fun P T => List.Sublist.refl _⟩
  | cons e es ih =>
    obtain ⟨n1, h1, h2, _⟩ := step_spec w e
    obtain ⟨n2, h3, h4⟩ := ih (step w e)
    refine ⟨n1 ++ n2, ?_, ?_⟩
    · rw [run_cons, h3, h1, List.append_assoc]
    · intro P T
      rw [forwarded_append, inbound_cons]
      exact List.Sublist.append (h2 P T) (h4 P T)

/-- A peer that exists and is not registered is the target of no send of a
run. -/
theorem run_absent (P : Nat) (events : List Event) (w : World) (h1 : P < w.created)
    (h2 : P ∉ w.server.clients.elems) :
    ∀ x ∈ issued w.server (run w events).server, x.target ≠ P := by
  induction events generalizing w with
  | nil =>
    intro x hx
    simp [issued, run] at hx
  | cons e es ih =>
    obtain ⟨n1, h3, _, h4⟩ := step_spec w e
    have h5 := ih (step w e) (Nat.lt_of_lt_of_le h1 (step_created w e)) (step_absent w e P h1 h2)
    obtain ⟨n2, h6, _⟩ := run_spec es (step w e)
    intro x hx
    have hx2 : x ∈ n1 ++ n2 := by
      unfold issued at hx
      rw [run_cons, h6, h3, List.append_assoc, List.drop_left] at hx
      exact hx
    rcases List.mem_append.mp hx2 with hx3 | hx3
    · intro hP
      exact h2 (hP ▸ h4 x hx3)
    · apply h5
      unfold issued
      rw [h6, List.drop_left]
      exact hx3

/-- C6. Per-sender order is preserved: for every sequence of server events
(accepts, messages, closes, errors, send completions, socket state changes)
processed one at a time from any state, and for every sender `P` and target
`T`, the messages from `P` that the server sends to `T` during the run form,
in the order of sending, a subsequence of the messages the server received
from `P`, in the order of arrival: nothing is reordered, nothing is sent
twice. From the initial state this is the whole log of sends. -/
theorem C6_per_sender_order (w : World) (events : List Event) (P T : Nat)
    (readyState : Nat → ReadyState) :
    (forwarded P T (issued w.server (run w events).server)).Sublist (inbound P events) ∧
    (forwarded P T (run (World.init readyState) events).server.sent).Sublist
      (inbound P events) := by
  constructor
  · obtain ⟨new, h1, h2⟩ := run_spec events w
    unfold issued
    rw [h1, List.drop_left]
    exact h2 P T
  · obtain ⟨new, h1, h2⟩ := run_spec events (World.init readyState)
    rw [h1]
    exact h2 P T

/-- C5. After a 'close' or an 'error' event for `P` the registry is the
previous registry with `P` erased: `P` is absent and every other peer keeps
its membership and its place. No message received afterwards is sent to `P`:
not the next one, from any peer, and none during any later run of events
(`P` is an existing socket, so no later accept yields it again). With A, B, C
registered and OPEN, after A disconnects a message from B is sent only to C. -/
theorem C5_removed_peer_gets_nothing (s : Server) (P : Nat) (e : String) :
    (onClose s P).clients.elems = s.clients.elems.erase P ∧
    (onError s P e).clients.elems = s.clients.elems.erase P ∧
    (∀ Q, Q ∈ (onClose s P).clients.elems ↔ Q ∈ s.clients.elems ∧ Q ≠ P) ∧
    (∀ Q, Q ∈ (onError s P e).clients.elems ↔ Q ∈ s.clients.elems ∧ Q ≠ P) ∧
    (∀ (Q : Nat) (m : Message) (k : Nat → Completion),
      P ∉ targetsOf (issued (onClose s P) (onMessage (onClose s P) Q m k)) ∧
      P ∉ targetsOf (issued (onError s P e) (onMessage (onError s P e) Q m k))) ∧
    (∀ (n : Nat) (events : List Event), P < n →
      (∀ x ∈ issued (onClose s P) (run ⟨onClose s P, n⟩ events).server, x.target ≠ P) ∧
      (∀ x ∈ issued (onError s P e) (run ⟨onError s P e, n⟩ events).server,
        x.target ≠ P)) ∧
    (∀ (m : Message) (k : Nat → Completion),
      issued (onClose threePeers 0) (onMessage (onClose threePeers 0) 1 m k) =
        [⟨1, 2, m⟩]) := by
  have herase : (s.clients.delete P).elems = s.clients.elems.erase P := by
    simp only [JSSet.delete]
    rw [List.Nodup.erase_eq_filter s.clients.nodup]
    congr 1
    funext y
    simp [bne, Bool.not_eq_eq_eq_not, Nat.beq_eq_true_eq]
    rfl
  have habs : P ∉ (s.clients.delete P).elems := by simp [JSSet.mem_delete]
  refine ⟨herase, herase, fun Q => JSSet.mem_delete _ _ _, fun Q => JSSet.mem_delete _ _ _,
    ?_, ?_, ?_⟩
  · intro Q m k
    rw [targetsOf_issued_onMessage, targetsOf_issued_onMessage]
    constructor
    · intro h
      exact habs ((mem_liveOthers _ _ _).mp h).1
    · intro h
      exact habs ((mem_liveOthers _ _ _).mp h).1
  · intro n events hn
    exact ⟨run_absent P events ⟨onClose s P, n⟩ hn habs,
      run_absent P events ⟨onError s P e, n⟩ hn habs⟩
  · intro m k
    rw [issued_onMessage]
    rfl

/-- Witness of C5: A (`0`) closes among A, B, C; in the run in which B then
sends a note, a fourth peer connects and C sends a note, the first send goes
to C, not to A. -/
theorem C5_removed_peer_gets_nothing_witness :
    (0 : Nat) < 3 ∧
    ∀ x ∈ issued (onClose threePeers 0) (run ⟨onClose threePeers 0, 3⟩
        [Event.message 1 noteOnText (fun _ => Completion.ok), Event.connection,
          Event.message 2 noteOnText (fun _ => Completion.ok)]).server,
      x.target ≠ 0 :=
  ⟨by decide, ((C5_removed_peer_gets_nothing threePeers 0 "reset").2.2.2.2.2.1 3
    [Event.message 1 noteOnText (fun _ => Completion.ok), Event.connection,
      Event.message 2 noteOnText (fun _ => Completion.ok)] (by decide)).1⟩

/-! ## Lemmas on the JSON text of the client -/

theorem decimalAux_fuel (f1 : Nat) : ∀ (f2 n : Nat) (acc : List Nat), n < f1 → n < f2 →
    decimalAux f1 n acc = decimalAux f2 n acc := by
  induction f1 with
  | zero => intro f2 n acc h; omega
  | succ k ih =>
    intro f2 n acc h1 h2
    obtain ⟨j, rfl⟩ : ∃ j, f2 = j + 1 := ⟨f2 - 1, by omega⟩
    unfold decimalAux
    by_cases hn : n < 10
    · rw [if_pos hn, if_pos hn]
    · rw [if_neg hn, if_neg hn]
      exact ih j (n / 10) _ (by omega) (by omega)

theorem decimalAux_acc (fuel : Nat) : ∀ (n : Nat) (acc : List Nat),
    decimalAux fuel n acc = decimalAux fuel n [] ++ acc := by
  induction fuel with
  | zero => intro n acc; rfl
  | succ k ih =>
    intro n acc
    unfold decimalAux
    by_cases hn : n < 10
    · rw [if_pos hn, if_pos hn]
      rfl
    · rw [if_neg hn, if_neg hn, ih (n / 10) ((48 + n % 10) :: acc),
        ih (n / 10) [48 + n % 10], List.append_assoc]
      rfl

theorem numberToString_small (n : Nat) (h : n < 10) : numberToString n = [48 + n] := by
  unfold numberToString decimalAux
  rw [if_pos h]

theorem numberToString_large (n : Nat) (h : 10 ≤ n) :
    numberToString n = numberToString (n / 10) ++ [48 + n % 10] := by
  have h1 : numberToString n = decimalAux n (n / 10) [48 + n % 10] := by
    unfold numberToString
    rw [decimalAux, if_neg (by omega)]
  rw [h1, decimalAux_acc]
  unfold numberToString
  rw [decimalAux_fuel n (n / 10 + 1) (n / 10) [] (by omega) (by omega)]

/-- The text of a number starts with a digit, and with `0` only for zero. -/
theorem numberToString_head (n : Nat) :
    ∃ c cs, numberToString n = c :: cs ∧ isDigit c = true ∧ (c = 48 → cs = [] ∧ n = 0) := by
  induction n using Nat.strong_induction_on with
  | _ n ih =>
    by_cases hn : n < 10
    · refine ⟨48 + n, [], numberToString_small n hn, ?_, ?_⟩
      · simp only [isDigit, Bool.and_eq_true, decide_eq_true_eq]
        omega
      · intro h
        exact ⟨rfl, by omega⟩
    · obtain ⟨c, cs, h1, h2, h3⟩ := ih (n / 10) (by omega)
      refine ⟨c, cs ++ [48 + n % 10], ?_, h2, ?_⟩
      · rw [numberToString_large n (by omega), h1]
        rfl
      · intro h
        have := (h3 h).2
        omega

theorem takeDigits_digit (c : Nat) (cs : List Nat) (h : isDigit c = true) :
    takeDigits (c :: cs) = ((c - 48) :: (takeDigits cs).1, (takeDigits cs).2) := by
  rw [takeDigits, if_pos h]

theorem takeDigits_stop (c : Nat) (cs : List Nat) (h : isDigit c = false) :
    takeDigits (c :: cs) = ([], c :: cs) := by
  rw [takeDigits, if_neg (by simp [h])]

/-- Reading back the digits written for `n`. -/
theorem takeDigits_numberToString (n : Nat) : ∀ tail : List Nat,
    (takeDigits (numberToString n ++ tail)).2 = (takeDigits tail).2 ∧
    List.foldl (fun a d => 10 * a + d) 0 (takeDigits (numberToString n ++ tail)).1 =
      List.foldl (fun a d => 10 * a + d) n (takeDigits tail).1 := by
  induction n using Nat.strong_induction_on with
  | _ n ih =>
    intro tail
    by_cases hn : n < 10
    · have hd : isDigit (48 + n) = true := by
        simp only [isDigit, Bool.and_eq_true, decide_eq_true_eq]
        omega
      rw [numberToString_small n hn, List.singleton_append, takeDigits_digit _ _ hd]
      refine ⟨rfl, ?_⟩
      simp only [List.foldl_cons]
      congr 1
      omega
    · have hd : isDigit (48 + n % 10) = true := by
        simp only [isDigit, Bool.and_eq_true, decide_eq_true_eq]
        omega
      obtain ⟨h1, h2⟩ := ih (n / 10) (by omega) ((48 + n % 10) :: tail)
      rw [numberToString_large n (by omega), List.append_assoc, List.singleton_append, h1, h2,
        takeDigits_digit _ _ hd]
      refine ⟨rfl, ?_⟩
      simp only [List.foldl_cons]
      congr 1
      omega


theorem parseValue_number (fuel n c : Nat) (r : List Nat) (hc : c = 44 ∨ c = 93) :
    parseValue (fuel + 1) (numberToString n ++ c :: r) = some (integerValue n, c :: r) := by
  obtain ⟨d, ds, h1, h2, h3⟩ := numberToString_head n
  have hstop : takeDigits (c :: r) = ([], c :: r) :=
    takeDigits_stop c r (by rcases hc with rfl | rfl <;> rfl)
  obtain ⟨h4, h5⟩ := takeDigits_numberToString n (c :: r)
  rw [hstop] at h4 h5
  have hd : 48 ≤ d ∧ d ≤ 57 := by
    simpa [isDigit] using h2
  have hint : parseInteger (numberToString n ++ c :: r) = some (n, c :: r) := by
    by_cases h0 : d = 48
    · obtain ⟨h6, h7⟩ := h3 h0
      subst h7
      rw [numberToString_small 0 (by omega)]
      rfl
    · have h6 : parseInteger (d :: (ds ++ c :: r)) =
          some (digitsValue (takeDigits (d :: (ds ++ c :: r))).1,
            (takeDigits (d :: (ds ++ c :: r))).2) := by
        rw [parseInteger, if_neg h0, if_pos h2]
      rw [h1] at h4 h5 ⊢
      rw [List.cons_append] at h4 h5 ⊢
      rw [h6, h4]
      unfold digitsValue
      rw [h5]
      rfl
  have hfrac : parseFraction (c :: r) = some ([], c :: r) := by
    rw [parseFraction, if_neg (by omega)]
  have hexp : parseExponent (c :: r) = some (none, c :: r) := by
    simp only [parseExponent]
    rw [if_neg (by omega)]
  have hnum : parseNumber (numberToString n ++ c :: r) = some (⟨false, n, [], none⟩, c :: r) := by
    have h6 : parseNumber (d :: (ds ++ c :: r)) = parseUnsigned false (d :: (ds ++ c :: r)) := by
      rw [parseNumber, if_neg (by omega)]
    rw [h1, List.cons_append, h6, ← List.cons_append, ← h1, parseUnsigned, hint]
    simp only [hfrac, hexp]
  have hws : skipWs (d :: (ds ++ c :: r)) = d :: (ds ++ c :: r) := by
    rw [skipWs, if_neg]
    simp only [isWhiteSpace, Bool.or_eq_true, beq_iff_eq]
    omega
  have h7 : numberToString n ++ c :: r = d :: (ds ++ c :: r) := by
    rw [h1, List.cons_append]
  rw [parseValue, h7, hws]
  simp only []
  rw [if_neg (by omega), if_neg (by omega), if_neg (by omega), if_pos (Or.inr h2), ← h7, hnum]
  rfl

/-- Reading back a non-empty array body written by `JSON.stringify`. -/
theorem parseElements_numbers (xs : List Nat) : ∀ (x : Nat) (fuel : Nat) (acc : List JValue)
    (r : List Nat), xs.length + 2 ≤ fuel →
    parseElements fuel acc
      (List.intercalate [44] ((x :: xs).map numberToString) ++ 93 :: r) =
      some (acc ++ (x :: xs).map integerValue, r) := by
  induction xs with
  | nil =>
    intro x fuel acc r hf
    obtain ⟨g, rfl⟩ : ∃ g, fuel = g + 1 + 1 := ⟨fuel - 2, by simp at hf; omega⟩
    have h1 : List.intercalate [44] ([x].map numberToString) ++ 93 :: r =
        numberToString x ++ 93 :: r := by
      simp [List.intercalate, List.intersperse]
    rw [h1, parseElements, parseValue_number g x 93 r (Or.inr rfl)]
    simp [skipWs, isWhiteSpace]
  | cons y ys ih =>
    intro x fuel acc r hf
    obtain ⟨g, rfl⟩ : ∃ g, fuel = g + 1 + 1 := ⟨fuel - 2, by simp at hf; omega⟩
    have h1 : List.intercalate [44] ((x :: y :: ys).map numberToString) ++ 93 :: r =
        numberToString x ++ 44 ::
          (List.intercalate [44] ((y :: ys).map numberToString) ++ 93 :: r) := by
      simp [List.intercalate, List.intersperse]
    rw [h1, parseElements, parseValue_number g x 44 _ (Or.inl rfl)]
    simp only [skipWs, isWhiteSpace]
    have h2 := ih y (g + 1) (acc ++ [integerValue x]) r (by simp at hf ⊢; omega)
    simp only [List.map_cons] at h2 ⊢
    simpa using h2

theorem utf16_prefix :
    utf16 "\x7b\"type\":\"midi\",\"payload\":" =
      [123, 34, 116, 121, 112, 101, 34, 58, 34, 109, 105, 100, 105, 34, 44,
        34, 112, 97, 121, 108, 111, 97, 100, 34, 58] := by
  rfl

theorem parseValue_envelope_of (g : Nat) (body : List Nat) (vs : List JValue)
    (hbody : parseValue (g + 1) (91 :: body) = some (JValue.array vs, [125])) :
    parseValue (g + 4)
      ([123, 34, 116, 121, 112, 101, 34, 58, 34, 109, 105, 100, 105, 34, 44,
        34, 112, 97, 121, 108, 111, 97, 100, 34, 58] ++ 91 :: body) =
      some (JValue.object [(typeKey, JValue.string midi), (payloadKey, JValue.array vs)], []) := by
  simp only [List.cons_append, List.nil_append]
  rw [parseValue]
  simp [skipWs, isWhiteSpace]
  rw [parseMembers]
  simp [skipWs, isWhiteSpace, parseStringChars]
  rw [parseValue]
  simp [skipWs, isWhiteSpace, parseStringChars]
  rw [parseMembers]
  simp [skipWs, isWhiteSpace, parseStringChars]
  rw [hbody]
  simp [skipWs, isWhiteSpace, typeKey, midi, payloadKey]

theorem length_intercalate_numbers (b : List Nat) :
    b.length ≤ (List.intercalate [44] (b.map numberToString)).length := by
  induction b with
  | nil => simp
  | cons x xs ih =>
    obtain ⟨c, cs, h1, _, _⟩ := numberToString_head x
    cases xs with
    | nil => simp [List.intercalate, List.intersperse, h1]
    | cons y ys =>
      have h2 : List.intercalate [44] ((x :: y :: ys).map numberToString) =
          numberToString x ++ 44 :: List.intercalate [44] ((y :: ys).map numberToString) := by
        simp [List.intercalate, List.intersperse]
      rw [h2, h1]
      simp only [List.length_cons, List.length_append] at ih ⊢
      omega

theorem parseValue_array (g : Nat) (b : List Nat) (hg : b.length + 1 ≤ g) :
    parseValue (g + 1) (91 :: (List.intercalate [44] (b.map numberToString) ++ [93, 125])) =
      some (JValue.array (b.map integerValue), [125]) := by
  cases b with
  | nil =>
    rw [parseValue]
    simp [skipWs, isWhiteSpace, List.intercalate]
  | cons x xs =>
    have key := parseElements_numbers xs x g [] [125] (by simpa using hg)
    obtain ⟨d, ds, h1, h2, _⟩ := numberToString_head x
    have hd : 48 ≤ d ∧ d ≤ 57 := by
      simpa [isDigit] using h2
    obtain ⟨tl, hL⟩ : ∃ tl, List.intercalate [44] ((x :: xs).map numberToString) ++ [93, 125] =
        d :: tl := by
      cases xs with
      | nil => exact ⟨_, by simp [List.intercalate, List.intersperse, h1]; rfl⟩
      | cons y ys => exact ⟨_, by simp [List.intercalate, List.intersperse, h1]; rfl⟩
    rw [hL] at key ⊢
    have hw : isWhiteSpace d = false := by
      simp only [isWhiteSpace, Bool.or_eq_false_iff, beq_eq_false_iff_ne]
      omega
    have h93 : ¬ d = 93 := by omega
    have hs : skipWs (d :: tl) = d :: tl := by
      rw [skipWs, hw]
      rfl
    have hs2 : skipWs (91 :: d :: tl) = 91 :: d :: tl := rfl
    rw [parseValue, hs2]
    simp only []
    rw [if_pos trivial, hs]
    simp only []
    rw [if_neg h93, key]
    rfl

/-- The function `JSON.parse` reads the text written for the bytes `b` as the
object with `type` `'midi'` and the payload of the same integers. -/
theorem jsonParse_messageToSend (b : List Nat) :
    jsonParse (messageToSend b) = some (envelopeValue b) := by
  have hshape : messageToSend b =
      [123, 34, 116, 121, 112, 101, 34, 58, 34, 109, 105, 100, 105, 34, 44,
        34, 112, 97, 121, 108, 111, 97, 100, 34, 58] ++
        91 :: (List.intercalate [44] (b.map numberToString) ++ [93, 125]) := by
    simp [messageToSend, stringifyArray, utf16_prefix]
  have hlen : (messageToSend b).length =
      (List.intercalate [44] (b.map numberToString)).length + 28 := by
    rw [hshape]
    simp
  have hb := length_intercalate_numbers b
  obtain ⟨g, hg⟩ : ∃ g, 2 * (messageToSend b).length + 2 = g + 4 :=
    ⟨2 * (messageToSend b).length - 2, by omega⟩
  have hbody := parseValue_array g b (by omega)
  unfold jsonParse
  rw [hg, hshape, parseValue_envelope_of g _ _ hbody]
  rfl

/-! ## Lemmas on the handlers of the client -/

theorem toUint8_integerValue (h : Host) (x : Nat) (hx : x < 256) :
    toUint8 h (integerValue x) = x := by
  have h2 : x < 2 ^ 53 := by
    have : (256 : Nat) ≤ 2 ^ 53 := by norm_num
    omega
  have h3 : toUint8 h (integerValue x) =
      if (false = false ∧ ([] : List Nat) = [] ∧ (none : Option Int) = none ∧ x < 2 ^ 53) then
        x % 256 else h.toUint8 (integerValue x) % 256 := rfl
  rw [h3, if_pos ⟨rfl, rfl, rfl, h2⟩]
  exact Nat.mod_eq_of_lt hx

theorem map_toUint8_integerValue (h : Host) (b : List Nat) (hb : ∀ x ∈ b, x < 256) :
    (b.map integerValue).map (toUint8 h) = b := by
  rw [List.map_map]
  conv_rhs => rw [← List.map_id b]
  apply List.map_congr_left
  intro x hx
  exact toUint8_integerValue h x (hb x hx)

theorem playRemoteMidi_ok (h : Host) (c c1 : Client) (d : List Nat)
    (hp : playRemoteMidi h c d = Except.ok c1) :
    c1.played = c.played ++ [d] ∧ c1.webSocket = c.webSocket ∧
      c1.readyState = c.readyState := by
  unfold playRemoteMidi at hp
  cases hs : c.selectedMidiOutput with
  | none =>
    simp only [hs] at hp
    cases hp
    exact ⟨rfl, rfl, rfl⟩
  | some port =>
    simp only [hs] at hp
    cases ho : h.outputSend port d with
    | none =>
      simp only [ho] at hp
      cases hp
      exact ⟨rfl, rfl, rfl⟩
    | some e =>
      simp only [ho] at hp
      cases hp

theorem playRemoteMidi_error (h : Host) (c c1 : Client) (d : List Nat) (e : String)
    (hp : playRemoteMidi h c d = Except.error (c1, e)) :
    c1.played = c.played ++ [d] ∧ c1.webSocket = c.webSocket ∧
      c1.readyState = c.readyState := by
  unfold playRemoteMidi at hp
  cases hs : c.selectedMidiOutput with
  | none =>
    simp only [hs] at hp
    cases hp
  | some port =>
    simp only [hs] at hp
    cases ho : h.outputSend port d with
    | none =>
      simp only [ho] at hp
      cases hp
    | some e2 =>
      simp only [ho] at hp
      cases hp
      exact ⟨rfl, rfl, rfl⟩

/-- What the `try` block does to the socket and to the calls of
`playRemoteMidi`: the socket stays; a call is added only for a message whose
type is `'midi'`. -/
theorem tryBlock_spec (h : Host) (c : Client) (v : JValue) :
    (∀ c1, tryBlock h c v = Except.ok c1 →
      c1.webSocket = c.webSocket ∧ c1.readyState = c.readyState ∧
      (c1.played ≠ c.played → typeIsMidi v = true)) ∧
    (∀ c1 e, tryBlock h c v = Except.error (c1, e) →
      c1.webSocket = c.webSocket ∧ c1.readyState = c.readyState ∧
      (c1.played ≠ c.played → typeIsMidi v = true)) := by
  unfold tryBlock typeIsMidi
  cases ht : getProperty v typeKey with
  | error e0 =>
    simp only []
    constructor
    · intro c1 hc
      cases hc
    · intro c1 e hc
      cases hc
      exact ⟨rfl, rfl, fun hne => absurd rfl hne⟩
  | ok type =>
    simp only []
    by_cases hm : isMidi type = true
    · rw [if_pos hm]
      cases hp : getProperty v payloadKey with
      | error e0 =>
        simp only []
        constructor
        · intro c1 hc
          cases hc
        · intro c1 e hc
          cases hc
          exact ⟨rfl, rfl, fun _ => hm⟩
      | ok payload =>
        cases payload with
        | none =>
          simp only []
          constructor
          · intro c1 hc
            cases hc
            exact ⟨rfl, rfl, fun _ => hm⟩
          · intro c1 e hc
            cases hc
        | some p =>
          simp only []
          by_cases htr : truthy h p = true
          · rw [if_pos htr]
            cases hn : newUint8Array h p with
            | error e0 =>
              simp only []
              constructor
              · intro c1 hc
                cases hc
              · intro c1 e hc
                cases hc
                exact ⟨rfl, rfl, fun _ => hm⟩
            | ok d =>
              simp only []
              constructor
              · intro c1 hc
                obtain ⟨_, h2, h3⟩ := playRemoteMidi_ok h _ c1 d hc
                exact ⟨h2, h3, fun _ => hm⟩
              · intro c1 e hc
                obtain ⟨_, h2, h3⟩ := playRemoteMidi_error h _ c1 d e hc
                exact ⟨h2, h3, fun _ => hm⟩
          · rw [if_neg htr]
            constructor
            · intro c1 hc
              cases hc
              exact ⟨rfl, rfl, fun _ => hm⟩
            · intro c1 e hc
              cases hc
    · rw [if_neg hm]
      constructor
      · intro c1 hc
        cases hc
        exact ⟨rfl, rfl, fun hne => absurd rfl hne⟩
      · intro c1 e hc
        cases hc

theorem tryBlock_not_midi (h : Host) (c : Client) (v : JValue) (hv : v ≠ JValue.null)
    (ht : typeIsMidi v = false) : tryBlock h c v = Except.ok (elseBranch c v) := by
  unfold typeIsMidi at ht
  unfold tryBlock
  cases hg : getProperty v typeKey with
  | error e =>
    exfalso
    cases v <;> simp [getProperty] at hg
    exact hv rfl
  | ok type =>
    rw [hg] at ht
    simp only [] at ht ⊢
    rw [if_neg (by simp [ht])]

theorem tryBlock_envelope (h : Host) (c : Client) (b : List Nat) (hb : ∀ x ∈ b, x < 256) :
    tryBlock h c (envelopeValue b) =
      playRemoteMidi h { c with console := c.console ++ [ClientLog.midiRecibido b] } b := by
  have h1 : getProperty (envelopeValue b) typeKey = Except.ok (some (JValue.string midi)) := rfl
  have h2 : getProperty (envelopeValue b) payloadKey =
      Except.ok (some (JValue.array (b.map integerValue))) := rfl
  have h3 : isMidi (some (JValue.string midi)) = true := rfl
  unfold tryBlock
  rw [h1]
  simp only []
  rw [if_pos h3, h2]
  simp only [truthy, if_true, newUint8Array, map_toUint8_integerValue h b hb]

theorem onmessage_socket (h : Host) (c : Client) (data : JSString) :
    (onmessage h c data).webSocket = c.webSocket ∧
    (onmessage h c data).readyState = c.readyState ∧
    ((onmessage h c data).played ≠ c.played →
      ∃ v, jsonParse data = some v ∧ typeIsMidi v = true) := by
  unfold onmessage
  cases hj : jsonParse data with
  | none => exact ⟨rfl, rfl, fun hne => absurd rfl hne⟩
  | some v =>
    simp only []
    obtain ⟨h1, h2⟩ := tryBlock_spec h c v
    cases ht : tryBlock h c v with
    | ok c1 =>
      obtain ⟨h3, h4, h5⟩ := h1 c1 ht
      exact ⟨h3, h4, fun hne => ⟨v, rfl, h5 hne⟩⟩
    | error p =>
      obtain ⟨c1, e⟩ := p
      obtain ⟨h3, h4, h5⟩ := h2 c1 e ht
      exact ⟨h3, h4, fun hne => ⟨v, rfl, h5 hne⟩⟩

/-! ## The claims on the client -/

/-- C7. Envelope encode and decode are inverse on the client: for every byte
sequence `b` (every length, zero included, every element in 0..255), a
client whose socket is open sends for `b` exactly the text
`messageToSend b`; `JSON.parse` reads that text as the object with `type`
`'midi'` and the payload of the same integers; the handler
`webSocket.onmessage` of any client, given that text, passes the check on
type and payload and calls `playRemoteMidi` once, with the bytes `b` in the
same order. -/
theorem C7_envelope_roundtrip (h : Host) (sender receiver : Client) (b : List Nat)
    (hb : ∀ x ∈ b, x < 256) :
    (sender.webSocket.isSome ∧ sender.readyState = ReadyState.OPEN →
      (handleLocalMidiMessage sender b).wsSent = sender.wsSent ++ [messageToSend b]) ∧
    jsonParse (messageToSend b) = some (envelopeValue b) ∧
    typeIsMidi (envelopeValue b) = true ∧
    tryBlock h receiver (envelopeValue b) =
      playRemoteMidi h
        { receiver with console := receiver.console ++ [ClientLog.midiRecibido b] } b ∧
    (onmessage h receiver (messageToSend b)).played = receiver.played ++ [b] := by
  refine ⟨?_, jsonParse_messageToSend b, rfl, tryBlock_envelope h receiver b hb, ?_⟩
  · intro hs
    unfold handleLocalMidiMessage
    simp only []
    rw [if_pos hs]
  · unfold onmessage
    rw [jsonParse_messageToSend b]
    simp only []
    rw [tryBlock_envelope h receiver b hb]
    cases hp : playRemoteMidi h
        { receiver with console := receiver.console ++ [ClientLog.midiRecibido b] } b with
    | ok c1 => exact (playRemoteMidi_ok h _ c1 b hp).1
    | error p =>
      obtain ⟨c1, e⟩ := p
      exact (playRemoteMidi_error h _ c1 b e hp).1

/-- Witness of C7: the note-on bytes 144, 60, 100 and the empty sequence. -/
theorem C7_envelope_roundtrip_witness :
    (onmessage Host.plain Client.connected (messageToSend [144, 60, 100])).played =
      [[144, 60, 100]] ∧
    (onmessage Host.plain Client.connected (messageToSend [])).played = [[]] ∧
    (handleLocalMidiMessage Client.connected [144, 60, 100]).wsSent =
      [utf16 "\x7b\"type\":\"midi\",\"payload\":[144,60,100]\x7d"] :=
  ⟨(C7_envelope_roundtrip Host.plain Client.connected Client.connected [144, 60, 100]
      (by decide)).2.2.2.2,
   (C7_envelope_roundtrip Host.plain Client.connected Client.connected []
      (by decide)).2.2.2.2,
   (C7_envelope_roundtrip Host.plain Client.connected Client.connected [144, 60, 100]
      (by decide)).1 ⟨rfl, rfl⟩⟩

/-- C8, as stated, fails. The text `null` is well-formed JSON and its `type`
is not `'midi'`, yet `webSocket.onmessage` does not reach the warning: reading
`message.type` of `null` throws, and the handler runs its catch block. So it
is false that every well-formed text whose type is not `'midi'` takes the
warning branch. -/
theorem C8_counterexample :
    jsonParse (utf16 "null") = some JValue.null ∧
    typeIsMidi JValue.null = false ∧
    onmessage Host.plain Client.connected (utf16 "null") =
      catchBlock Client.connected (utf16 "null") ∧
    onmessage Host.plain Client.connected (utf16 "null") ≠
      elseBranch Client.connected JValue.null ∧
    ¬ (∀ (h : Host) (c : Client) (data : JSString) (v : JValue),
        jsonParse data = some v → typeIsMidi v = false →
        onmessage h c data = elseBranch c v) := by
  have h1 : jsonParse (utf16 "null") = some JValue.null := rfl
  have h3 : onmessage Host.plain Client.connected (utf16 "null") =
      catchBlock Client.connected (utf16 "null") := rfl
  have h4 : onmessage Host.plain Client.connected (utf16 "null") ≠
      elseBranch Client.connected JValue.null := by
    intro heq
    have hc := congrArg Client.console heq
    rw [h3] at hc
    simp [catchBlock, elseBranch, Client.connected] at hc
  exact ⟨h1, rfl, h3, h4, fun hall => h4 (hall _ _ _ _ h1 rfl)⟩

/-- C8, amended. For every received text: if it is not well-formed JSON the
handler runs its catch block; if it is well-formed JSON other than `null`
and its `type` is not `'midi'` the handler runs the warning branch; if it is
`null` the handler runs its catch block. In each of these cases
`playRemoteMidi` is not called and the socket is as before (both blocks only
write to the console). In every case the socket is as before, and
`playRemoteMidi` is called only when the text is well-formed JSON whose
`type` equals `'midi'`. -/
theorem C8_decode_failures (h : Host) (c : Client) (data : JSString) :
    (jsonParse data = none → onmessage h c data = catchBlock c data) ∧
    (∀ v, jsonParse data = some v → v ≠ JValue.null → typeIsMidi v = false →
      onmessage h c data = elseBranch c v) ∧
    (jsonParse data = some JValue.null → onmessage h c data = catchBlock c data) ∧
    ((catchBlock c data).played = c.played ∧ (catchBlock c data).webSocket = c.webSocket ∧
      (catchBlock c data).readyState = c.readyState ∧
      (catchBlock c data).console = c.console ++ [ClientLog.errorAlProcesar data]) ∧
    (∀ v, (elseBranch c v).played = c.played ∧ (elseBranch c v).webSocket = c.webSocket ∧
      (elseBranch c v).readyState = c.readyState ∧
      (elseBranch c v).console = c.console ++ [ClientLog.noEsMidiEsperado v]) ∧
    (onmessage h c data).webSocket = c.webSocket ∧
    (onmessage h c data).readyState = c.readyState ∧
    ((onmessage h c data).played ≠ c.played →
      ∃ v, jsonParse data = some v ∧ typeIsMidi v = true) := by
  refine ⟨?_, ?_, ?_, ⟨rfl, rfl, rfl, rfl⟩, fun v => ⟨rfl, rfl, rfl, rfl⟩,
    (onmessage_socket h c data).1, (onmessage_socket h c data).2.1,
    (onmessage_socket h c data).2.2⟩
  · intro hj
    unfold onmessage
    rw [hj]
  · intro v hj hv ht
    unfold onmessage
    rw [hj]
    simp only []
    rw [tryBlock_not_midi h c v hv ht]
  · intro hj
    unfold onmessage
    rw [hj]
    rfl

/-- Witness of C8: the text `hello` does not parse and runs the catch block;
the text `[1]` parses, is not `null`, has no type and runs the warning. -/
theorem C8_decode_failures_witness :
    onmessage Host.plain Client.connected (utf16 "hello") =
      catchBlock Client.connected (utf16 "hello") ∧
    onmessage Host.plain Client.connected (utf16 "[1]") =
      elseBranch Client.connected (JValue.array [integerValue 1]) :=
  ⟨(C8_decode_failures Host.plain Client.connected (utf16 "hello")).1 rfl,
   (C8_decode_failures Host.plain Client.connected (utf16 "[1]")).2.1
     (JValue.array [integerValue 1]) rfl (by simp) rfl⟩

/-! ## The recursion bound of the parser is never reached -/

theorem skipWs_length (s : List Nat) : (skipWs s).length ≤ s.length := by
  induction s with
  | nil => exact Nat.le_refl _
  | cons c cs ih =>
    rw [skipWs]
    split
    · exact Nat.le_succ_of_le ih
    · exact Nat.le_refl _

theorem takeDigits_length (s : List Nat) : (takeDigits s).2.length ≤ s.length := by
  induction s with
  | nil => exact Nat.le_refl _
  | cons c cs ih =>
    rw [takeDigits]
    split
    · exact Nat.le_succ_of_le ih
    · exact Nat.le_refl _

theorem parseStringChars_length (s : List Nat) : ∀ (st : StringState) (acc x : JSString)
    (r : List Nat), parseStringChars st acc s = some (x, r) → r.length < s.length := by
  induction s with
  | nil =>
    intro st acc x r h
    cases st <;> simp [parseStringChars] at h
  | cons c cs ih =>
    intro st acc x r h
    cases st with
    | normal =>
      rw [parseStringChars] at h
      split at h
      · cases h
        exact Nat.lt_succ_self _
      · split at h
        · exact Nat.lt_succ_of_lt (ih _ _ _ _ h)
        · split at h
          · cases h
          · exact Nat.lt_succ_of_lt (ih _ _ _ _ h)
    | escape =>
      rw [parseStringChars] at h
      split at h
      · exact Nat.lt_succ_of_lt (ih _ _ _ _ h)
      · split at h
        · exact Nat.lt_succ_of_lt (ih _ _ _ _ h)
        · cases h
    | hex k val =>
      rw [parseStringChars] at h
      split at h
      · cases h
      · split at h
        · exact Nat.lt_succ_of_lt (ih _ _ _ _ h)
        · exact Nat.lt_succ_of_lt (ih _ _ _ _ h)

theorem parseInteger_length (s : List Nat) (i : Nat) (r : List Nat)
    (h : parseInteger s = some (i, r)) : r.length < s.length := by
  cases s with
  | nil => simp [parseInteger] at h
  | cons c cs =>
    rw [parseInteger] at h
    split at h
    · cases h
      exact Nat.lt_succ_self _
    · rename_i h0
      split at h
      · rename_i hd
        cases h
        rw [takeDigits_digit c cs hd]
        exact Nat.lt_succ_of_le (takeDigits_length cs)
      · cases h

theorem parseFraction_length (s : List Nat) (fr r : List Nat)
    (h : parseFraction s = some (fr, r)) : r.length ≤ s.length := by
  cases s with
  | nil =>
    simp [parseFraction] at h
    rw [h.2]
  | cons c cs =>
    rw [parseFraction] at h
    split at h
    · split at h
      · cases h
      · have h2 : (takeDigits cs).2 = r := congrArg Prod.snd (Option.some.inj h)
        rw [← h2]
        exact Nat.le_succ_of_le (takeDigits_length cs)
    · cases h
      exact Nat.le_refl _

theorem parseExponentDigits_length (neg : Bool) (s : List Nat) (ex : Option Int)
    (r : List Nat) (h : parseExponentDigits neg s = some (ex, r)) : r.length ≤ s.length := by
  unfold parseExponentDigits at h
  split at h
  · cases h
  · cases h
    exact takeDigits_length s

theorem parseExponent_length (s : List Nat) (ex : Option Int) (r : List Nat)
    (h : parseExponent s = some (ex, r)) : r.length ≤ s.length := by
  cases s with
  | nil =>
    simp [parseExponent] at h
    rw [h.2]
  | cons c cs =>
    simp only [parseExponent] at h
    split at h
    · cases cs with
      | nil => cases h
      | cons d ds =>
        simp only [] at h
        split at h
        · have := parseExponentDigits_length _ _ _ _ h
          simp only [List.length_cons]
          omega
        · split at h
          · have := parseExponentDigits_length _ _ _ _ h
            simp only [List.length_cons]
            omega
          · have := parseExponentDigits_length _ _ _ _ h
            simp only [List.length_cons] at this ⊢
            omega
    · cases h
      exact Nat.le_refl _

theorem parseUnsigned_length (neg : Bool) (s : List Nat) (n : JNumber) (r : List Nat)
    (h : parseUnsigned neg s = some (n, r)) : r.length < s.length := by
  unfold parseUnsigned at h
  cases h1 : parseInteger s with
  | none => simp [h1] at h
  | some p1 =>
    obtain ⟨i, s1⟩ := p1
    simp only [h1] at h
    cases h2 : parseFraction s1 with
    | none => simp [h2] at h
    | some p2 =>
      obtain ⟨fr, s2⟩ := p2
      simp only [h2] at h
      cases h3 : parseExponent s2 with
      | none => simp [h3] at h
      | some p3 =>
        obtain ⟨ex, s3⟩ := p3
        simp only [h3] at h
        cases h
        have a := parseInteger_length _ _ _ h1
        have b := parseFraction_length _ _ _ h2
        have c := parseExponent_length _ _ _ h3
        omega

theorem parseNumber_length (s : List Nat) (n : JNumber) (r : List Nat)
    (h : parseNumber s = some (n, r)) : r.length < s.length := by
  cases s with
  | nil => simp [parseNumber] at h
  | cons c cs =>
    rw [parseNumber] at h
    split at h
    · exact Nat.lt_succ_of_lt (parseUnsigned_length _ _ _ _ h)
    · exact parseUnsigned_length _ _ _ _ h

theorem expect_length (w s r : List Nat) (h : expect w s = some r) : r.length ≤ s.length := by
  unfold expect at h
  split at h
  · cases h
    rw [List.length_drop]
    exact Nat.sub_le _ _
  · cases h

/-- A successful parse consumes input, and succeeds with the same result for
every bound that is at least twice the number of code units consumed. -/
theorem parse_bound (f : Nat) :
    (∀ s v r, parseValue f s = some (v, r) → r.length < s.length ∧
      ∀ g, 2 * (s.length - r.length) ≤ g → parseValue g s = some (v, r)) ∧
    (∀ acc s vs r, parseElements f acc s = some (vs, r) → r.length < s.length ∧
      ∀ g, 2 * (s.length - r.length) ≤ g → parseElements g acc s = some (vs, r)) ∧
    (∀ acc s ms r, parseMembers f acc s = some (ms, r) → r.length < s.length ∧
      ∀ g, 2 * (s.length - r.length) ≤ g → parseMembers g acc s = some (ms, r)) := by
  induction f with
  | zero =>
    refine ⟨?_, ?_, ?_⟩
    · intro s v r h
      simp [parseValue] at h
    · intro acc s vs r h
      simp [parseElements] at h
    · intro acc s ms r h
      simp [parseMembers] at h
  | succ f ih =>
    obtain ⟨ihV, ihE, ihM⟩ := ih
    refine ⟨?_, ?_, ?_⟩
    · intro s v r h
      rw [parseValue] at h
      have hl := skipWs_length s
      cases hs : skipWs s with
      | nil =>
        rw [hs] at h
        cases h
      | cons c cs =>
        rw [hs] at h hl
        simp only [] at h
        simp only [List.length_cons] at hl
        by_cases h123 : c = 123
        · rw [if_pos h123] at h
          have hl2 := skipWs_length cs
          cases hs2 : skipWs cs with
          | nil =>
            rw [hs2] at h
            cases h
          | cons d ds =>
            rw [hs2] at h hl2
            simp only [] at h
            simp only [List.length_cons] at hl2
            by_cases h125 : d = 125
            · rw [if_pos h125] at h
              cases h
              refine ⟨by omega, ?_⟩
              intro g hg
              obtain ⟨g', rfl⟩ : ∃ g', g = g' + 1 := ⟨g - 1, by omega⟩
              rw [parseValue, hs]
              simp only []
              rw [if_pos h123, hs2]
              simp only []
              rw [if_pos h125]
            · rw [if_neg h125] at h
              cases hm : parseMembers f [] (d :: ds) with
              | none =>
                rw [hm] at h
                cases h
              | some p =>
                obtain ⟨ms, r'⟩ := p
                rw [hm] at h
                cases h
                obtain ⟨hlen, hfuel⟩ := ihM [] (d :: ds) ms r hm
                simp only [List.length_cons] at hlen hfuel
                refine ⟨by omega, ?_⟩
                intro g hg
                obtain ⟨g', rfl⟩ : ∃ g', g = g' + 1 := ⟨g - 1, by omega⟩
                rw [parseValue, hs]
                simp only []
                rw [if_pos h123, hs2]
                simp only []
                rw [if_neg h125, hfuel g' (by omega)]
        · rw [if_neg h123] at h
          by_cases h91 : c = 91
          · rw [if_pos h91] at h
            have hl2 := skipWs_length cs
            cases hs2 : skipWs cs with
            | nil =>
              rw [hs2] at h
              cases h
            | cons d ds =>
              rw [hs2] at h hl2
              simp only [] at h
              simp only [List.length_cons] at hl2
              by_cases h93 : d = 93
              · rw [if_pos h93] at h
                cases h
                refine ⟨by omega, ?_⟩
                intro g hg
                obtain ⟨g', rfl⟩ : ∃ g', g = g' + 1 := ⟨g - 1, by omega⟩
                rw [parseValue, hs]
                simp only []
                rw [if_neg h123, if_pos h91, hs2]
                simp only []
                rw [if_pos h93]
              · rw [if_neg h93] at h
                cases hm : parseElements f [] (d :: ds) with
                | none =>
                  rw [hm] at h
                  cases h
                | some p =>
                  obtain ⟨vs, r'⟩ := p
                  rw [hm] at h
                  cases h
                  obtain ⟨hlen, hfuel⟩ := ihE [] (d :: ds) vs r hm
                  simp only [List.length_cons] at hlen hfuel
                  refine ⟨by omega, ?_⟩
                  intro g hg
                  obtain ⟨g', rfl⟩ : ∃ g', g = g' + 1 := ⟨g - 1, by omega⟩
                  rw [parseValue, hs]
                  simp only []
                  rw [if_neg h123, if_pos h91, hs2]
                  simp only []
                  rw [if_neg h93, hfuel g' (by omega)]
          · rw [if_neg h91] at h
            have hr : r.length < s.length := by
              split at h
              · cases hp : parseStringChars StringState.normal [] cs with
                | none =>
                  rw [hp] at h
                  cases h
                | some p =>
                  obtain ⟨x, r'⟩ := p
                  rw [hp] at h
                  cases h
                  have := parseStringChars_length _ _ _ _ _ hp
                  omega
              · split at h
                · cases hp : parseNumber (c :: cs) with
                  | none =>
                    rw [hp] at h
                    cases h
                  | some p =>
                    obtain ⟨x, r'⟩ := p
                    rw [hp] at h
                    cases h
                    have := parseNumber_length _ _ _ hp
                    simp only [List.length_cons] at this
                    omega
                · split at h
                  · cases hp : expect [114, 117, 101] cs with
                    | none =>
                      rw [hp] at h
                      cases h
                    | some r' =>
                      rw [hp] at h
                      cases h
                      have := expect_length _ _ _ hp
                      omega
                  · split at h
                    · cases hp : expect [97, 108, 115, 101] cs with
                      | none =>
                        rw [hp] at h
                        cases h
                      | some r' =>
                        rw [hp] at h
                        cases h
                        have := expect_length _ _ _ hp
                        omega
                    · split at h
                      · cases hp : expect [117, 108, 108] cs with
                        | none =>
                          rw [hp] at h
                          cases h
                        | some r' =>
                          rw [hp] at h
                          cases h
                          have := expect_length _ _ _ hp
                          omega
                      · cases h
            refine ⟨hr, ?_⟩
            intro g hg
            obtain ⟨g', rfl⟩ : ∃ g', g = g' + 1 := ⟨g - 1, by omega⟩
            rw [parseValue, hs]
            simp only []
            rw [if_neg h123, if_neg h91]
            exact h
    · intro acc s vs r h
      rw [parseElements] at h
      cases hv : parseValue f s with
      | none =>
        rw [hv] at h
        cases h
      | some p =>
        obtain ⟨v, s1⟩ := p
        rw [hv] at h
        simp only [] at h
        obtain ⟨hlen1, hfuel1⟩ := ihV s v s1 hv
        have hl := skipWs_length s1
        cases hs : skipWs s1 with
        | nil =>
          rw [hs] at h
          cases h
        | cons c cs =>
          rw [hs] at h hl
          simp only [] at h
          simp only [List.length_cons] at hl
          by_cases h44 : c = 44
          · rw [if_pos h44] at h
            obtain ⟨hlen2, hfuel2⟩ := ihE _ cs vs r h
            refine ⟨by omega, ?_⟩
            intro g hg
            obtain ⟨g', rfl⟩ : ∃ g', g = g' + 1 := ⟨g - 1, by omega⟩
            rw [parseElements, hfuel1 g' (by omega)]
            simp only []
            rw [hs]
            simp only []
            rw [if_pos h44, hfuel2 g' (by omega)]
          · rw [if_neg h44] at h
            by_cases h93 : c = 93
            · rw [if_pos h93] at h
              cases h
              refine ⟨by omega, ?_⟩
              intro g hg
              obtain ⟨g', rfl⟩ : ∃ g', g = g' + 1 := ⟨g - 1, by omega⟩
              rw [parseElements, hfuel1 g' (by omega)]
              simp only []
              rw [hs]
              simp only []
              rw [if_neg h44, if_pos h93]
            · rw [if_neg h93] at h
              cases h
    · intro acc s ms r h
      rw [parseMembers] at h
      have hl0 := skipWs_length s
      cases hs0 : skipWs s with
      | nil =>
        rw [hs0] at h
        cases h
      | cons q s0 =>
        rw [hs0] at h hl0
        simp only [] at h
        simp only [List.length_cons] at hl0
        by_cases h34 : q = 34
        · rw [if_pos h34] at h
          cases hk : parseStringChars StringState.normal [] s0 with
          | none =>
            rw [hk] at h
            cases h
          | some p =>
            obtain ⟨key, s1⟩ := p
            rw [hk] at h
            simp only [] at h
            have hlk := parseStringChars_length _ _ _ _ _ hk
            have hl1 := skipWs_length s1
            cases hs1 : skipWs s1 with
            | nil =>
              rw [hs1] at h
              cases h
            | cons c cs =>
              rw [hs1] at h hl1
              simp only [] at h
              simp only [List.length_cons] at hl1
              by_cases h58 : c = 58
              · rw [if_pos h58] at h
                cases hv : parseValue f cs with
                | none =>
                  rw [hv] at h
                  cases h
                | some p =>
                  obtain ⟨v, s2⟩ := p
                  rw [hv] at h
                  simp only [] at h
                  obtain ⟨hlen1, hfuel1⟩ := ihV cs v s2 hv
                  have hl2 := skipWs_length s2
                  cases hs2 : skipWs s2 with
                  | nil =>
                    rw [hs2] at h
                    cases h
                  | cons d ds =>
                    rw [hs2] at h hl2
                    simp only [] at h
                    simp only [List.length_cons] at hl2
                    by_cases h44 : d = 44
                    · rw [if_pos h44] at h
                      obtain ⟨hlen2, hfuel2⟩ := ihM _ ds ms r h
                      refine ⟨by omega, ?_⟩
                      intro g hg
                      obtain ⟨g', rfl⟩ : ∃ g', g = g' + 1 := ⟨g - 1, by omega⟩
                      rw [parseMembers, hs0]
                      simp only []
                      rw [if_pos h34, hk]
                      simp only []
                      rw [hs1]
                      simp only []
                      rw [if_pos h58, hfuel1 g' (by omega)]
                      simp only []
                      rw [hs2]
                      simp only []
                      rw [if_pos h44, hfuel2 g' (by omega)]
                    · rw [if_neg h44] at h
                      by_cases h125 : d = 125
                      · rw [if_pos h125] at h
                        cases h
                        refine ⟨by omega, ?_⟩
                        intro g hg
                        obtain ⟨g', rfl⟩ : ∃ g', g = g' + 1 := ⟨g - 1, by omega⟩
                        rw [parseMembers, hs0]
                        simp only []
                        rw [if_pos h34, hk]
                        simp only []
                        rw [hs1]
                        simp only []
                        rw [if_pos h58, hfuel1 g' (by omega)]
                        simp only []
                        rw [hs2]
                        simp only []
                        rw [if_neg h44, if_pos h125]
                      · rw [if_neg h125] at h
                        cases h
              · rw [if_neg h58] at h
                cases h
        · rw [if_neg h34] at h
          cases h

/-- The bound used by `jsonParse` is never what makes it fail: a parse that
succeeds with any bound succeeds with the bound of `jsonParse`. -/
theorem jsonParse_of_parseValue (f : Nat) (text : JSString) (v : JValue) (rest : List Nat)
    (h : parseValue f text = some (v, rest)) (hrest : skipWs rest = []) :
    jsonParse text = some v := by
  obtain ⟨_, h2⟩ := (parse_bound f).1 text v rest h
  unfold jsonParse
  rw [h2 (2 * text.length + 2) (by omega)]
  simp only []
  rw [if_pos hrest]

/-! ## Broadcasts and the registry over a run -/

theorem step_keeps_member (w : World) (e : Event) (T : Nat) (he : removes T e = false)
    (hT : T ∈ w.server.clients.elems) : T ∈ (step w e).server.clients.elems := by
  cases e with
  | connection =>
    simp only [step, onConnection]
    exact (JSSet.mem_add _ _ _).mpr (Or.inl hT)
  | message ws m k =>
    simp only [step]
    split
    · simp only [onMessage_clients]
      exact hT
    · exact hT
  | close ws =>
    have hne : ¬ ws = T := by simpa [removes] using he
    simp only [step]
    split
    · simp only [onClose]
      exact (JSSet.mem_delete _ _ _).mpr ⟨hT, fun h => hne h.symm⟩
    · exact hT
  | error ws err =>
    have hne : ¬ ws = T := by simpa [removes] using he
    simp only [step]
    split
    · simp only [onError]
      exact (JSSet.mem_delete _ _ _).mpr ⟨hT, fun h => hne h.symm⟩
    · exact hT
  | sendDone mt err =>
    simp only [step, sendCallback_clients]
    exact hT
  | readyState ws st => exact hT

/-- A registered peer stays registered over a run without its own 'close' or
'error' event. -/
theorem run_keeps_member (T : Nat) (events : List Event) (w : World)
    (he : ∀ ev ∈ events, removes T ev = false) (hT : T ∈ w.server.clients.elems) :
    T ∈ (run w events).server.clients.elems := by
  induction events generalizing w with
  | nil => exact hT
  | cons e es ih =>
    rw [run_cons]
    exact ih (step w e) (fun ev hev => he ev (List.mem_cons_of_mem _ hev))
      (step_keeps_member w e T (he e (List.mem_cons_self _ _)) hT)

/-- C10, as stated, fails in its last clause. With A, B, C registered and
OPEN, A broadcasts and the send to B (`1`) fails; then the library moves the
socket of B to CLOSING, with no 'close' and no 'error' event for B. B is
still registered, yet the next broadcast, from C, is sent to A only: the
loop skips every socket that is not OPEN. So it is false that a target whose
send failed is a target of every later broadcast until its own 'close' or
'error' event. -/
theorem C10_counterexample :
    1 ∈ targetsOf (issued threePeers (broadcast threePeers 0 noteOnText
      (fun _ => Completion.failed))) ∧
    removes 1 (Event.readyState 1 ReadyState.CLOSING) = false ∧
    1 ∈ (run ⟨broadcast threePeers 0 noteOnText (fun _ => Completion.failed), 3⟩
      [Event.readyState 1 ReadyState.CLOSING]).server.clients.elems ∧
    targetsOf (issued
      (run ⟨broadcast threePeers 0 noteOnText (fun _ => Completion.failed), 3⟩
        [Event.readyState 1 ReadyState.CLOSING]).server
      (broadcast
        (run ⟨broadcast threePeers 0 noteOnText (fun _ => Completion.failed), 3⟩
          [Event.readyState 1 ReadyState.CLOSING]).server
        2 noteOnText (fun _ => Completion.ok))) = [0] ∧
    ¬ (∀ (s : Server) (P : Nat) (m : Message) (k : Nat → Completion) (T : Nat) (e : String)
        (n : Nat) (events : List Event) (Q : Nat) (m2 : Message) (k2 : Nat → Completion),
        T ∈ targetsOf (issued s (broadcast s P m k)) → (k T).err = some e →
        (∀ ev ∈ events, removes T ev = false) → Q ≠ T →
        (targetsOf (issued (run ⟨broadcast s P m k, n⟩ events).server
          (broadcast (run ⟨broadcast s P m k, n⟩ events).server Q m2 k2))).count T = 1) := by
  have h1 : 1 ∈ targetsOf (issued threePeers (broadcast threePeers 0 noteOnText
      (fun _ => Completion.failed))) := by
    rw [targetsOf_issued_broadcast, threePeers_liveOthers]
    decide
  have h2 : removes 1 (Event.readyState 1 ReadyState.CLOSING) = false := rfl
  have h3 : 1 ∈ (run ⟨broadcast threePeers 0 noteOnText (fun _ => Completion.failed), 3⟩
      [Event.readyState 1 ReadyState.CLOSING]).server.clients.elems := by
    apply run_keeps_member
    · intro ev hev
      rw [List.mem_singleton] at hev
      rw [hev]
      rfl
    · rw [broadcast_clients, threePeers_elems]
      decide
  have h4 : targetsOf (issued
      (run ⟨broadcast threePeers 0 noteOnText (fun _ => Completion.failed), 3⟩
        [Event.readyState 1 ReadyState.CLOSING]).server
      (broadcast
        (run ⟨broadcast threePeers 0 noteOnText (fun _ => Completion.failed), 3⟩
          [Event.readyState 1 ReadyState.CLOSING]).server
        2 noteOnText (fun _ => Completion.ok))) = [0] := by
    rw [targetsOf_issued_broadcast]
    rfl
  refine ⟨h1, h2, h3, h4, ?_⟩
  intro hall
  have h5 := hall threePeers 0 noteOnText (fun _ => Completion.failed) 1 "EPIPE" 3
    [Event.readyState 1 ReadyState.CLOSING] 2 noteOnText (fun _ => Completion.ok) h1 rfl
    (by
      intro ev hev
      rw [List.mem_singleton] at hev
      rw [hev]
      rfl)
    (by decide)
  rw [h4] at h5
  exact absurd h5 (by decide)

/-- C10, amended. Broadcasting never changes the registry: for every registry
state, sender, message and outcome of the sends, the registry (and every
socket state) after the 'message' handler and all its completion callbacks
equals the one before. A target whose send failed is not removed: over every
later run of events without its own 'close' or 'error' event it stays
registered, and it is a target, once, of every later broadcast of another
peer that starts while its socket is OPEN. -/
theorem C10_broadcast_keeps_registry (s : Server) (P : Nat) (m : Message)
    (k : Nat → Completion) :
    (onMessage s P m k).clients = s.clients ∧
    (broadcast s P m k).clients = s.clients ∧
    (broadcast s P m k).readyState = s.readyState ∧
    (∀ (T : Nat) (e : String), T ∈ targetsOf (issued s (broadcast s P m k)) →
      (k T).err = some e →
      T ∈ (broadcast s P m k).clients.elems ∧
      (∀ (Q : Nat) (m2 : Message) (k2 : Nat → Completion), Q ≠ T →
        (targetsOf (issued (broadcast s P m k)
          (broadcast (broadcast s P m k) Q m2 k2))).count T = 1) ∧
      ∀ (n : Nat) (events : List Event), (∀ ev ∈ events, removes T ev = false) →
        T ∈ (run ⟨broadcast s P m k, n⟩ events).server.clients.elems ∧
        ∀ (Q : Nat) (m2 : Message) (k2 : Nat → Completion), Q ≠ T →
          (run ⟨broadcast s P m k, n⟩ events).server.readyState T = ReadyState.OPEN →
          (targetsOf (issued (run ⟨broadcast s P m k, n⟩ events).server
            (broadcast (run ⟨broadcast s P m k, n⟩ events).server Q m2 k2))).count T
              = 1) := by
  refine ⟨onMessage_clients s P m k, broadcast_clients s P m k,
    broadcast_readyState s P m k, ?_⟩
  intro T e hT _
  rw [targetsOf_issued_broadcast] at hT
  obtain ⟨h1, _, h3⟩ := (mem_liveOthers s P T).mp hT
  have hreg : T ∈ (broadcast s P m k).clients.elems := by
    rw [broadcast_clients]
    exact h1
  refine ⟨hreg, ?_, ?_⟩
  · intro Q m2 k2 hQ
    rw [targetsOf_issued_broadcast,
      liveOthers_congr s _ Q (broadcast_clients s P m k) (broadcast_readyState s P m k)]
    exact count_liveOthers s Q T h1 (fun h => hQ h.symm) h3
  · intro n events hev
    have hmem := run_keeps_member T events ⟨broadcast s P m k, n⟩ hev hreg
    refine ⟨hmem, ?_⟩
    intro Q m2 k2 hQ hopen
    rw [targetsOf_issued_broadcast]
    exact count_liveOthers _ Q T hmem (fun h => hQ h.symm) hopen

/-- Witness of C10: the send from A to B (`1`) fails; over the run in which
the socket of B goes to CLOSING and back to OPEN, A closes and a fourth peer
connects, B stays registered and the next broadcast, from C, is sent to B. -/
theorem C10_broadcast_keeps_registry_witness :
    1 ∈ (run ⟨broadcast threePeers 0 noteOnText (fun _ => Completion.failed), 3⟩
      [Event.readyState 1 ReadyState.CLOSING, Event.readyState 1 ReadyState.OPEN,
        Event.close 0, Event.connection]).server.clients.elems ∧
    (targetsOf (issued
      (run ⟨broadcast threePeers 0 noteOnText (fun _ => Completion.failed), 3⟩
        [Event.readyState 1 ReadyState.CLOSING, Event.readyState 1 ReadyState.OPEN,
          Event.close 0, Event.connection]).server
      (broadcast
        (run ⟨broadcast threePeers 0 noteOnText (fun _ => Completion.failed), 3⟩
          [Event.readyState 1 ReadyState.CLOSING, Event.readyState 1 ReadyState.OPEN,
            Event.close 0, Event.connection]).server
        2 noteOnText (fun _ => Completion.ok)))).count 1 = 1 :=
  have h := ((C10_broadcast_keeps_registry threePeers 0 noteOnText
    (fun _ => Completion.failed)).2.2.2 1 "EPIPE"
    (by rw [targetsOf_issued_broadcast, threePeers_liveOthers]; decide) rfl).2.2 3
    [Event.readyState 1 ReadyState.CLOSING, Event.readyState 1 ReadyState.OPEN,
      Event.close 0, Event.connection]
    (by
      intro ev hev
      simp only [List.mem_cons, List.mem_singleton, List.not_mem_nil, or_false] at hev
      rcases hev with rfl | rfl | rfl | rfl <;> rfl)
  ⟨h.1, h.2 2 noteOnText (fun _ => Completion.ok) (by decide) rfl⟩

end MidiWebSocket
